import Mathlib

/-!
Verification of the ema-vix-rsi-strategy backtesting core.

The Python sources are shallowly embedded over exact rational arithmetic.
IEEE-754 special values matter to several functions (`np.nan` comparisons,
division by zero producing `inf`), so numbers are modelled by the type `F`
below: a rational payload plus `nan` / `inf` / `ninf` constructors, with
arithmetic and comparisons following IEEE-754 semantics (any comparison
with `nan` is false; `x / 0` is `inf`, `ninf` or `nan` by the sign of `x`;
rounding is ignored, which is sound for the sign/NaN-propagation facts
proved here).  Pandas constructs used by the code (`ewm(span, adjust=False)`,
`rolling(w).mean()`, `diff`, `shift`, row-wise `max` skipping NaN) are
modelled as list functions with pandas' documented NaN handling.
-/

/-- Model of an IEEE-754 double: a rational value or one of the special
values `nan`, `+inf`, `-inf`.  Rounding is not modelled. -/
inductive F where
  | nan : F
  | inf : F
  | ninf : F
  | val : ℚ → F
deriving DecidableEq, Repr

namespace F

/-- Coerce a rational literal to a float value. -/
def ofQ (q : ℚ) : F := val q

/-- IEEE addition: `nan` propagates, `inf + -inf = nan`. -/
def add : F → F → F
  | nan, _ => nan
  | _, nan => nan
  | inf, ninf => nan
  | ninf, inf => nan
  | inf, _ => inf
  | _, inf => inf
  | ninf, _ => ninf
  | _, ninf => ninf
  | val a, val b => val (a + b)

/-- IEEE negation. -/
def neg : F → F
  | nan => nan
  | inf => ninf
  | ninf => inf
  | val a => val (-a)

/-- IEEE subtraction. -/
def sub (x y : F) : F := add x (neg y)

/-- IEEE multiplication: `nan` propagates, `inf * 0 = nan`. -/
def mul : F → F → F
  | nan, _ => nan
  | _, nan => nan
  | inf, inf => inf
  | inf, ninf => ninf
  | ninf, inf => ninf
  | ninf, ninf => inf
  | inf, val b => if b = 0 then nan else if 0 < b then inf else ninf
  | val a, inf => if a = 0 then nan else if 0 < a then inf else ninf
  | ninf, val b => if b = 0 then nan else if 0 < b then ninf else inf
  | val a, ninf => if a = 0 then nan else if 0 < a then ninf else inf
  | val a, val b => val (a * b)

/-- IEEE division.  Division of a nonzero value by zero gives a signed
infinity (numpy emits a warning but no exception); `0 / 0`, `inf / inf`
give `nan`; finite over infinite gives `0`.  The positive sign is used for
the zero divisor (the embedded code never produces `-0.0`). -/
def div : F → F → F
  | nan, _ => nan
  | _, nan => nan
  | inf, inf => nan
  | inf, ninf => nan
  | ninf, inf => nan
  | ninf, ninf => nan
  | inf, val b => if 0 ≤ b then inf else ninf
  | ninf, val b => if 0 ≤ b then ninf else inf
  | val _, inf => val 0
  | val _, ninf => val 0
  | val a, val b =>
      if b = 0 then (if a = 0 then nan else if 0 < a then inf else ninf)
      else val (a / b)

/-- IEEE `<` as a boolean: false whenever either side is `nan`. -/
def lt : F → F → Bool
  | nan, _ => false
  | _, nan => false
  | inf, _ => false
  | _, inf => true
  | ninf, ninf => false
  | ninf, _ => true
  | _, ninf => false
  | val a, val b => decide (a < b)

/-- IEEE `<=` as a boolean: false whenever either side is `nan`. -/
def le : F → F → Bool
  | nan, _ => false
  | _, nan => false
  | _, inf => true
  | inf, _ => false
  | ninf, _ => true
  | _, ninf => false
  | val a, val b => decide (a ≤ b)

/-- `np.isnan`. -/
def isNan : F → Bool
  | nan => true
  | _ => false

/-- `np.isfinite`. -/
def isFinite : F → Bool
  | val _ => true
  | _ => false

/-- The rational payload of a finite value (junk 0 otherwise). -/
def toQ : F → ℚ
  | val a => a
  | _ => 0

/-- `abs`. -/
def fabs : F → F
  | nan => nan
  | inf => inf
  | ninf => inf
  | val a => val |a|

end F

/-- Sum of a list of floats (`nan` propagates, as for `np.sum`/`sum`). -/
def fsum (xs : List F) : F := xs.foldl F.add (F.val 0)

/-- `np.mean` over a list of floats: sum divided by length. -/
def fmean (xs : List F) : F := F.div (fsum xs) (F.val xs.length)

/-!
## Regime Selector (`src/python/backtest.py`, `get_volatility_regime`)
-/

/-- Volatility regime. -/
inductive Regime where
  | LOW : Regime
  | MEDIUM : Regime
  | HIGH : Regime
deriving DecidableEq, Repr

/-- `get_volatility_regime(vol_rank, low_percentile, high_percentile)` from
`src/python/backtest.py`: `if vol_rank < low_percentile: 'LOW' elif
vol_rank < high_percentile: 'MEDIUM' else: 'HIGH'`. -/
def get_volatility_regime (vol_rank low_percentile high_percentile : F) : Regime :=
  if F.lt vol_rank low_percentile then Regime.LOW
  else if F.lt vol_rank high_percentile then Regime.MEDIUM
  else Regime.HIGH

/-!
## Pandas primitives

`ewm(span=s, adjust=False)` keeps a weighted numerator and the rational sum
of its weights; NaN observations contribute nothing but still decay the
weights of the older ones (pandas `ignore_na=False`).  With no NaN in the
input this is exactly the recurrence `y[i] = a*x[i] + (1-a)*y[i-1]` seeded
at the first value.
-/

/-- State of the `ewm(adjust=False)` accumulator: whether a non-NaN value
has been seen, the weighted numerator and the (rational) weight sum. -/
structure EwmSt where
  seen : Bool
  num : F
  den : ℚ
deriving Repr

/-- One step of pandas `ewm(alpha=a, adjust=False, ignore_na=False).mean()`. -/
def ewmStep (a : ℚ) (s : EwmSt) (x : F) : EwmSt × F :=
  if s.seen then
    let num0 := F.mul (F.val (1 - a)) s.num
    let den0 := (1 - a) * s.den
    let num1 := if x.isNan then num0 else F.add num0 (F.mul (F.val a) x)
    let den1 := if x.isNan then den0 else den0 + a
    (⟨true, num1, den1⟩, F.div num1 (F.val den1))
  else if x.isNan then (s, F.nan)
  else (⟨true, x, 1⟩, x)

/-- Run the ewm accumulator down a list. -/
def ewmGo (a : ℚ) : EwmSt → List F → List F
  | _, [] => []
  | s, x :: xs =>
    let p := ewmStep a s x
    p.2 :: ewmGo a p.1 xs

/-- `series.ewm(span=span, adjust=False).mean()` with `alpha = 2/(span+1)`. -/
def ewmSpan (span : ℕ) (xs : List F) : List F :=
  ewmGo (2 / ((span : ℚ) + 1)) ⟨false, F.nan, 0⟩ xs

/-- `series.diff()`: first entry NaN, then consecutive differences. -/
def diffList : List F → List F
  | [] => []
  | x :: xs => F.nan :: List.zipWith F.sub xs (x :: xs)

/-- `series.shift(1)`: first entry NaN, the rest shifted down one slot. -/
def shiftList (xs : List F) : List F :=
  match xs with
  | [] => []
  | _ => F.nan :: xs.dropLast

/-- Binary max that skips NaN (a NaN operand is ignored). -/
def mx2 (x y : F) : F :=
  if x.isNan then y else if y.isNan then x else if F.lt x y then y else x

/-- Row-wise `DataFrame.max(axis=1)` over three columns (pandas skips NaN
within a row; an all-NaN row stays NaN). -/
def maxRow3 (x y z : F) : F := mx2 (mx2 x y) z

/-- `series.rolling(window=w).mean()`: NaN until a full window of non-NaN
values is available (`min_periods` defaults to `w`), else the plain mean. -/
def rollingMean (w : ℕ) (xs : List F) : List F :=
  (List.range xs.length).map fun i =>
    if i + 1 < w then F.nan
    else
      let win := (xs.take (i + 1)).drop (i + 1 - w)
      if win.any F.isNan then F.nan else fmean win

/-- `series.rolling(window=w).apply(lambda x: (x < x.iloc[-1]).sum() / len(x) * 100)`
used for the volatility percentile column of the v2 strategies. -/
def rollingVolPct (w : ℕ) (xs : List F) : List F :=
  (List.range xs.length).map fun i =>
    if i + 1 < w then F.nan
    else
      let win := (xs.take (i + 1)).drop (i + 1 - w)
      if win.any F.isNan then F.nan
      else F.val ((win.countP fun v => F.lt v (xs.getD i F.nan)) / (w : ℚ) * 100)

/-!
## Indicator Library

`src/python/indicators.py` (pandas) and `src/python/indicators_numba.py`.
-/

namespace Indicators

/-- `ema(series, period)` from `src/python/indicators.py`:
`series.ewm(span=period, adjust=False).mean()`. -/
def ema (series : List F) (period : ℕ) : List F := ewmSpan period series

/-- `atr(high, low, close, period)` from `src/python/indicators.py`:
row-wise max of `high-low`, `|high-close.shift()|`, `|low-close.shift()|`,
then `ewm(span=period, adjust=False).mean()`. -/
def atr (high low close : List F) (period : ℕ) : List F :=
  let pc := shiftList close
  let true_range := List.zipWith mx2
    (List.zipWith mx2 (List.zipWith F.sub high low)
      ((List.zipWith F.sub high pc).map F.fabs))
    ((List.zipWith F.sub low pc).map F.fabs)
  ewmSpan period true_range

end Indicators

namespace Numba

/-- `calculate_ema_numba(prices, period)` from
`src/python/indicators_numba.py`: all-NaN output when `n < period`,
otherwise NaN below index `period-1`, the simple mean of the first `period`
prices at index `period-1`, then the forward recurrence
`ema[i] = alpha*prices[i] + (1-alpha)*ema[i-1]` with `alpha = 2/(period+1)`. -/
def calculate_ema_numba (prices : List F) (period : ℕ) : List F :=
  if prices.length < period then List.replicate prices.length F.nan
  else
    let a : ℚ := 2 / ((period : ℚ) + 1)
    List.replicate (period - 1) F.nan ++
      List.scanl (fun prev x => F.add (F.mul (F.val a) x) (F.mul (F.val (1 - a)) prev))
        (fmean (prices.take period)) (prices.drop period)

end Numba

/-!
## Volatility percentile rank

`calculate_volatility_rank` from `src/python/backtest.py` and
`calculate_volatility_rank_numba` from `src/python/indicators_numba.py`.
-/

namespace Backtest

/-- `calculate_volatility_rank(normalized_atr, volatility_length)` from
`src/python/backtest.py`.  The output is zero-initialised (`np.zeros`), so
a window of fewer than 20 samples leaves the rank at `0.0`; otherwise the
rank is `np.sum(window <= current_vol) / len(window) * 100` where the
window is the trailing slice of length at most `volatility_length` ending
at `i` inclusive (a NaN entry compares false, but still counts in
`len(window)`). -/
def calculate_volatility_rank (normalized_atr : List F) (volatility_length : ℕ) : List F :=
  (List.range normalized_atr.length).map fun i =>
    let window := (normalized_atr.take (i + 1)).drop (i + 1 - volatility_length)
    if window.length < 20 then F.val 0
    else F.val (((window.countP fun v => F.le v (normalized_atr.getD i F.nan)) : ℚ)
      / (window.length : ℚ) * 100)

end Backtest

namespace Numba

/-- `calculate_volatility_rank_numba(normalized_atr, volatility_length,
min_history)` from `src/python/indicators_numba.py`.  The output is
NaN-initialised; a window shorter than `min_history` or a NaN current
value is skipped (stays NaN); otherwise only non-NaN window values are
counted and the denominator is the number of valid values. -/
def calculate_volatility_rank_numba (normalized_atr : List F)
    (volatility_length min_history : ℕ) : List F :=
  (List.range normalized_atr.length).map fun i =>
    let window := (normalized_atr.take (i + 1)).drop (i + 1 - volatility_length)
    if window.length < min_history then F.nan
    else
      let cur := normalized_atr.getD i F.nan
      if cur.isNan then F.nan
      else
        let valid := window.filter fun v => !v.isNan
        if 0 < valid.length then
          F.val (((valid.countP fun v => F.le v cur) : ℚ) / (valid.length : ℚ) * 100)
        else F.nan

end Numba

/-!
## Max drawdown

`calculate_metrics` in `src/backtesting/utils/performance.py` (lines
33-36) and `BaseStrategy._calculate_metrics` in
`src/backtesting/strategies/base_strategy.py` (lines 146-151).  Both build
the cumulative maximum (`cummax`) of the equity curve and the per-point
percentage drawdown `(equity - peak)/peak * 100`; `performance.py` reports
`abs(drawdown.min())` while `base_strategy.py` reports `drawdown.min()`
itself (a non-positive number).
-/

/-- Running tail of `Series.cummax` given the maximum `m` seen so far. -/
def cummaxGo (m : ℚ) : List ℚ → List ℚ
  | [] => []
  | x :: xs => max m x :: cummaxGo (max m x) xs

/-- `Series.cummax()`. -/
def cummax : List ℚ → List ℚ
  | [] => []
  | x :: xs => x :: cummaxGo x xs

/-- Per-point drawdown column `(equity - peak) / peak * 100`. -/
def drawdownCol (E : List ℚ) : List ℚ :=
  List.zipWith (fun e p => (e - p) / p * 100) E (cummax E)

/-- `Series.min()` (0 on an empty series; the equity curve is nonempty). -/
def listMin : List ℚ → ℚ
  | [] => 0
  | x :: xs => xs.foldl min x

/-- `Series.max()` counterpart used by the specification-side formula. -/
def listMax : List ℚ → ℚ
  | [] => 0
  | x :: xs => xs.foldl max x

namespace Performance

/-- Drawdown metric of `calculate_metrics` in
`src/backtesting/utils/performance.py`: `abs(drawdown.min())`. -/
def max_drawdown (E : List ℚ) : ℚ := |listMin (drawdownCol E)|

end Performance

namespace BaseStrategy

/-- Drawdown metric of `BaseStrategy._calculate_metrics` in
`src/backtesting/strategies/base_strategy.py`: `drawdown.min()`, without
taking the absolute value. -/
def max_drawdown_reported (E : List ℚ) : ℚ := listMin (drawdownCol E)

end BaseStrategy

/-- The drawdown formula exactly as the specification words it: the
maximum over i of `(running_peak(E)_i - E_i) / running_peak(E)_i * 100`,
with `running_peak` the cumulative maximum. -/
def maxDrawdownSpec (E : List ℚ) : ℚ :=
  listMax (List.zipWith (fun e p => (p - e) / p * 100) E (cummax E))

/-!
## RSI (`src/quantconnect/strategies/adaptive_ema_v2_2/base.py`,
`AdaptiveEMAV2_2.calculate_rsi`)
-/

namespace V22

/-- Gain column: `delta.where(delta > 0, 0)`. -/
def rsiGain (close : List F) : List F :=
  (diffList close).map fun d => if F.lt (F.val 0) d then d else F.val 0

/-- Loss column: `-delta.where(delta < 0, 0)`. -/
def rsiLoss (close : List F) : List F :=
  (diffList close).map fun d => F.neg (if F.lt d (F.val 0) then d else F.val 0)

/-- `avg_gain = gain.rolling(window=rsi_length).mean()`. -/
def avgGain (close : List F) (rsi_length : ℕ) : List F :=
  rollingMean rsi_length (rsiGain close)

/-- `avg_loss = loss.rolling(window=rsi_length).mean()`. -/
def avgLoss (close : List F) (rsi_length : ℕ) : List F :=
  rollingMean rsi_length (rsiLoss close)

/-- `calculate_rsi` of `AdaptiveEMAV2_2`: `rs = avg_gain / avg_loss`,
`rsi = 100 - (100 / (1 + rs))`, all elementwise with float semantics. -/
def calculate_rsi (close : List F) (rsi_length : ℕ) : List F :=
  (List.zipWith F.div (avgGain close rsi_length) (avgLoss close rsi_length)).map
    fun rs => F.sub (F.val 100) (F.div (F.val 100) (F.add (F.val 1) rs))

end V22

/-!
## Signal Generator

`run_strategy` in `src/python/backtest.py` (regime-selected EMA crossover,
lines 141-206) and `AdaptiveEMAV2_2.generate_signals` in
`src/quantconnect/strategies/adaptive_ema_v2_2/base.py`.
-/

/-- A discrete trading signal (`None` is modelled by `Option Sig`). -/
inductive Sig where
  | BUY : Sig
  | SELL : Sig
deriving DecidableEq, Repr

namespace Backtest

/-- The strategy parameters of `src/python/backtest.py` (`DEFAULT_PARAMS`
keys). -/
structure Params where
  fast_length_low : ℕ
  slow_length_low : ℕ
  fast_length_med : ℕ
  slow_length_med : ℕ
  fast_length_high : ℕ
  slow_length_high : ℕ
  volatility_length : ℕ
  atr_length : ℕ
  low_vol_percentile : ℚ
  high_vol_percentile : ℚ
  initial_capital : ℚ
deriving Repr

/-- `normalized_atr = (atr_values / closes) * 100` (run_strategy line 112). -/
def normalized_atr (high low close : List F) (atr_length : ℕ) : List F :=
  List.zipWith (fun a c => F.mul (F.div a c) (F.val 100))
    (Indicators.atr high low close atr_length) close

/-- The `vol_ranks` series of `run_strategy` (line 115). -/
def vol_ranks (p : Params) (high low close : List F) : List F :=
  calculate_volatility_rank (normalized_atr high low close p.atr_length) p.volatility_length

/-- The regime-selected (fast, slow) EMA series pair
(run_strategy lines 118-123 and 150-164). -/
def regime_emas (p : Params) (close : List F) : Regime → List F × List F
  | Regime.LOW => (Indicators.ema close p.fast_length_low, Indicators.ema close p.slow_length_low)
  | Regime.MEDIUM => (Indicators.ema close p.fast_length_med, Indicators.ema close p.slow_length_med)
  | Regime.HIGH => (Indicators.ema close p.fast_length_high, Indicators.ema close p.slow_length_high)

/-- The regime selected at bar `i` (run_strategy line 147). -/
def regimeAt (p : Params) (high low close : List F) (i : ℕ) : Regime :=
  get_volatility_regime ((vol_ranks p high low close).getD i F.nan)
    (F.val p.low_vol_percentile) (F.val p.high_vol_percentile)

/-- The signal decision of one iteration of the `run_strategy` loop
(lines 141-172): skip (`continue`) when the volatility rank is NaN, select
the regime EMA pair, skip when the current fast/slow EMA is NaN, then
`bullish_cross = prev_fast <= prev_slow and fast_ema > slow_ema` emits BUY
and `bearish_cross = prev_fast >= prev_slow and fast_ema < slow_ema`
emits SELL. -/
def signalAt (p : Params) (high low close : List F) (i : ℕ) : Option Sig :=
  let vr := (vol_ranks p high low close).getD i F.nan
  if vr.isNan then none
  else
    let pair := regime_emas p close (regimeAt p high low close i)
    let fast_ema := pair.1.getD i F.nan
    let slow_ema := pair.2.getD i F.nan
    let prev_fast := pair.1.getD (i - 1) F.nan
    let prev_slow := pair.2.getD (i - 1) F.nan
    if fast_ema.isNan || slow_ema.isNan then none
    else if F.le prev_fast prev_slow && F.lt slow_ema fast_ema then some Sig.BUY
    else if F.le prev_slow prev_fast && F.lt fast_ema slow_ema then some Sig.SELL
    else none

end Backtest

namespace V22

/-- Constructor parameters of `AdaptiveEMAV2_2`. -/
structure Params where
  fast_base : ℕ
  slow_base : ℕ
  fast_mult : ℚ
  slow_mult : ℚ
  atr_length : ℕ
  vol_threshold : ℚ
  vol_length : ℕ
  rsi_length : ℕ
  rsi_threshold : ℚ
  volume_ma_length : ℕ
deriving Repr

/-- `relative_volatility = (atr / close) * 100` (`calculate_indicators`;
`calculate_atr` is the same true-range/ewm formula as
`src/python/indicators.py`). -/
def relative_volatility (p : Params) (high low close : List F) : List F :=
  List.zipWith (fun a c => F.mul (F.div a c) (F.val 100))
    (Indicators.atr high low close p.atr_length) close

/-- The `vol_percentile` column: `relative_volatility.rolling(vol_length)
.apply(lambda x: (x < x.iloc[-1]).sum() / len(x) * 100)`. -/
def vol_percentile (p : Params) (high low close : List F) : List F :=
  rollingVolPct p.vol_length (relative_volatility p high low close)

/-- The `is_high_vol` flag at a bar: `vol_percentile >= vol_threshold`
(false on NaN). -/
def is_high_vol (p : Params) (high low close : List F) (idx : ℕ) : Bool :=
  F.le (F.val p.vol_threshold) ((vol_percentile p high low close).getD idx F.nan)

/-- `fast_period` column: `int(fast_base * fast_mult)` in the high-vol
regime, else `fast_base`. -/
def fast_period (p : Params) (high low close : List F) (idx : ℕ) : ℕ :=
  if is_high_vol p high low close idx then (((p.fast_base : ℚ) * p.fast_mult).floor).toNat
  else p.fast_base

/-- `slow_period` column, analogous. -/
def slow_period (p : Params) (high low close : List F) (idx : ℕ) : ℕ :=
  if is_high_vol p high low close idx then (((p.slow_base : ℚ) * p.slow_mult).floor).toNat
  else p.slow_base

/-- `calculate_ema(series, period)`: the last value of
`series.ewm(span=period, adjust=False).mean()`. -/
def calculate_ema (series : List F) (period : ℕ) : F :=
  (ewmSpan period series).getLastD F.nan

/-- One call of `AdaptiveEMAV2_2.generate_signals(data, idx)`.  `prev` is
the `(prev_ema_fast, prev_ema_slow)` instance state (None before the
first post-warmup call); the result pairs the emitted signal with the
updated state.  Before warmup the call returns None and leaves the state
untouched. -/
def generate_signals (p : Params) (high low close volume : List F) (idx : ℕ)
    (prev : Option (F × F)) : Option Sig × Option (F × F) :=
  let warmup := max (max p.atr_length p.vol_length) (max p.rsi_length p.volume_ma_length) + 10
  if idx < warmup then (none, prev)
  else
    let fp := fast_period p high low close idx
    let sp := slow_period p high low close idx
    let rsi := (calculate_rsi close p.rsi_length).getD idx F.nan
    let vol := volume.getD idx F.nan
    let volume_ma := (rollingMean p.volume_ma_length volume).getD idx F.nan
    let ema_fast := calculate_ema (close.take (idx + 1)) fp
    let ema_slow := calculate_ema (close.take (idx + 1)) sp
    let sig : Option Sig :=
      match prev with
      | none => none
      | some pf_ps =>
        if F.le pf_ps.1 pf_ps.2 && F.lt ema_slow ema_fast then
          (if F.lt rsi (F.val p.rsi_threshold) && F.lt volume_ma vol then some Sig.BUY
           else none)
        else if F.le pf_ps.2 pf_ps.1 && F.lt ema_fast ema_slow then some Sig.SELL
        else none
    (sig, some (ema_fast, ema_slow))

end V22

/-!
## Simulation Engine

`BaseStrategy.run` in `src/backtesting/strategies/base_strategy.py`: the
bar loop with position gating, trade recording, the equity curve, the
end-of-run forced liquidation, and `_calculate_metrics`.  The engine is
generic over `generate_signals` (an abstract method overridden by each
strategy); a signal generator here is a function from the bar index and
the strategy's mutable instance state to a signal and an updated state.
-/

/-- A price bar (timestamp, OHLCV; the `open` field is never consumed by
the embedded code paths and is omitted). -/
structure Bar where
  ts : ℕ
  high : ℚ
  low : ℚ
  close : ℚ
  volume : ℚ
deriving DecidableEq, Repr

instance : Inhabited Bar := ⟨⟨0, 0, 0, 0, 0⟩⟩

/-- A trade record as appended by `_execute_buy` / `_execute_sell`
(the SELL record additionally carries the percentage return). -/
inductive TradeRec where
  | buy (ts : ℕ) (price shares capital : ℚ) : TradeRec
  | sell (ts : ℕ) (price shares capital ret : ℚ) : TradeRec
deriving DecidableEq, Repr

namespace TradeRec

/-- Is this a BUY record? -/
def isBuy : TradeRec → Bool
  | buy .. => true
  | sell .. => false

/-- Is this a SELL record? -/
def isSell : TradeRec → Bool
  | buy .. => false
  | sell .. => true

/-- The record's timestamp. -/
def ts : TradeRec → ℕ
  | buy t .. => t
  | sell t .. => t

/-- The recorded percentage return (0 for a BUY record). -/
def ret : TradeRec → ℚ
  | buy .. => 0
  | sell _ _ _ _ r => r

end TradeRec

/-- The mutable state of a `BaseStrategy` instance during `run`: capital,
open position (share count), entry price, the trade list, the equity
curve, and the strategy-specific signal-generator state `σ` (for the v2
strategies, the `prev_ema_fast` / `prev_ema_slow` crossover memory, which
`run` does NOT reset). -/
structure RunSt (σ : Type) where
  capital : ℚ
  position : ℚ
  entry_price : ℚ
  trades : List TradeRec
  equity_curve : List (ℕ × ℚ)
  sig_state : σ
deriving Repr

namespace BaseStrategy

/-- `_execute_buy(bar)`: buy max shares at the bar's close. -/
def execute_buy {σ : Type} (s : RunSt σ) (bar : Bar) : RunSt σ :=
  { s with
    position := s.capital / bar.close
    entry_price := bar.close
    trades := s.trades ++
      [TradeRec.buy bar.ts bar.close (s.capital / bar.close) s.capital] }

/-- `_execute_sell(bar)`: liquidate at the bar's close, record the
percentage return. -/
def execute_sell {σ : Type} (s : RunSt σ) (bar : Bar) : RunSt σ :=
  { s with
    capital := s.position * bar.close
    position := 0
    entry_price := 0
    trades := s.trades ++
      [TradeRec.sell bar.ts bar.close s.position (s.position * bar.close)
        ((bar.close - s.entry_price) / s.entry_price * 100)] }

/-- `_calculate_equity(bar)`: mark-to-market when long, else capital. -/
def calc_equity {σ : Type} (s : RunSt σ) (bar : Bar) : ℚ :=
  if 0 < s.position then s.position * bar.close else s.capital

/-- One iteration of the `run` bar loop: query the signal, honour BUY
only when flat and SELL only when long (`elif`), then append an equity
point. -/
def runStep {σ : Type} (sig : ℕ → σ → Option Sig × σ) (bars : List Bar)
    (s : RunSt σ) (idx : ℕ) : RunSt σ :=
  let p := sig idx s.sig_state
  let s1 := { s with sig_state := p.2 }
  let bar := bars.getD idx default
  let s2 :=
    match p.1 with
    | some Sig.BUY => if s1.position = 0 then execute_buy s1 bar else s1
    | some Sig.SELL => if 0 < s1.position then execute_sell s1 bar else s1
    | none => s1
  { s2 with equity_curve := s2.equity_curve ++ [(bar.ts, calc_equity s2 bar)] }

/-- The `run` bar loop (lines 53-89): reset portfolio state, seed the
equity curve, iterate all bars, then force-close any open position at the
final bar.  The signal-generator state `s0` is whatever the strategy
instance carried into the call — `run` does not reset it. -/
def runLoop {σ : Type} (sig : ℕ → σ → Option Sig × σ) (initial_capital : ℚ)
    (s0 : σ) (bars : List Bar) : RunSt σ :=
  let init : RunSt σ :=
    { capital := initial_capital, position := 0, entry_price := 0, trades := [],
      equity_curve := [((bars.getD 0 default).ts, initial_capital)], sig_state := s0 }
  let looped := (List.range bars.length).foldl (runStep sig bars) init
  if 0 < looped.position then execute_sell looped (bars.getD (bars.length - 1) default)
  else looped

/-- The metrics dictionary of `_calculate_metrics` (the Sharpe ratio,
whose annualisation factor is irrational, is not carried; no claim
references it). -/
structure Metrics where
  total_return : ℚ
  buy_hold_return : ℚ
  alpha : ℚ
  final_capital : ℚ
  max_drawdown : ℚ
  calmar : ℚ
  num_trades : ℕ
  winning_trades : ℕ
  losing_trades : ℕ
  win_rate : ℚ
deriving DecidableEq, Repr

/-- `_calculate_metrics(data)` (lines 134-180).  `trades_df =
pd.DataFrame(self.trades)` built from an empty list has no columns, so
the selection `trades_df[trades_df['type'] == 'SELL']` raises
`KeyError: 'type'` — modelled as an `Except.error`. -/
def calculate_metrics {σ : Type} (initial_capital : ℚ) (s : RunSt σ)
    (bars : List Bar) : Except String Metrics :=
  if s.trades.isEmpty then Except.error "KeyError: type"
  else
    let equity := s.equity_curve.map Prod.snd
    let total_return := (s.capital - initial_capital) / initial_capital * 100
    let buy_hold := ((bars.getD (bars.length - 1) default).close
      - (bars.getD 0 default).close) / (bars.getD 0 default).close * 100
    let dd := max_drawdown_reported equity
    let calmar := if dd ≠ 0 then total_return / |dd| else 0
    let sells := s.trades.filter TradeRec.isSell
    let num_trades := sells.length
    let winning := if 0 < num_trades then (sells.filter fun t => 0 < t.ret).length else 0
    let losing := if 0 < num_trades then (sells.filter fun t => t.ret ≤ 0).length else 0
    let win_rate := if 0 < num_trades then (winning : ℚ) / (num_trades : ℚ) * 100 else 0
    Except.ok
      { total_return := total_return
        buy_hold_return := buy_hold
        alpha := total_return - buy_hold
        final_capital := s.capital
        max_drawdown := dd
        calmar := calmar
        num_trades := num_trades
        winning_trades := winning
        losing_trades := losing
        win_rate := win_rate }

/-- `BaseStrategy.run(data)`: the loop followed by `_calculate_metrics`;
the instance retains its final state. -/
def run {σ : Type} (sig : ℕ → σ → Option Sig × σ) (initial_capital : ℚ)
    (s0 : σ) (bars : List Bar) : Except String Metrics × RunSt σ :=
  let s := runLoop sig initial_capital s0 bars
  (calculate_metrics initial_capital s bars, s)

end BaseStrategy

/-!
## Adaptive EMA v2.1 (`src/backtesting/strategies/adaptive_ema_v2_1/base.py`)
-/

namespace V21

/-- Constructor parameters of `AdaptiveEMAV2_1`. -/
structure Params where
  fast_base : ℕ
  slow_base : ℕ
  fast_mult : ℚ
  slow_mult : ℚ
  atr_length : ℕ
  vol_threshold : ℚ
  vol_length : ℕ
  adx_length : ℕ
  adx_threshold : ℚ
deriving Repr

/-- `relative_volatility = (atr / close) * 100` (`calculate_indicators`;
`calculate_atr` is the pandas true-range/ewm formula). -/
def relative_volatility (p : Params) (high low close : List F) : List F :=
  List.zipWith (fun a c => F.mul (F.div a c) (F.val 100))
    (Indicators.atr high low close p.atr_length) close

/-- The `vol_percentile` column. -/
def vol_percentile (p : Params) (high low close : List F) : List F :=
  rollingVolPct p.vol_length (relative_volatility p high low close)

/-- `is_high_vol` at a bar: `vol_percentile >= vol_threshold`. -/
def is_high_vol (p : Params) (high low close : List F) (idx : ℕ) : Bool :=
  F.le (F.val p.vol_threshold) ((vol_percentile p high low close).getD idx F.nan)

/-- `fast_period` column value. -/
def fast_period (p : Params) (high low close : List F) (idx : ℕ) : ℕ :=
  if is_high_vol p high low close idx then (((p.fast_base : ℚ) * p.fast_mult).floor).toNat
  else p.fast_base

/-- `slow_period` column value. -/
def slow_period (p : Params) (high low close : List F) (idx : ℕ) : ℕ :=
  if is_high_vol p high low close idx then (((p.slow_base : ℚ) * p.slow_mult).floor).toNat
  else p.slow_base

/-- `calculate_adx(data)`: Wilder-style ADX from directional movement,
smoothed with the same `ewm(span=adx_length, adjust=False)`. -/
def calculate_adx (p : Params) (high low close : List F) : List F :=
  let high_diff := diffList high
  let low_diff := (diffList low).map F.neg
  let plus_dm := List.zipWith
    (fun hd ld => if F.lt ld hd && F.lt (F.val 0) hd then hd else F.val 0)
    high_diff low_diff
  let minus_dm := List.zipWith
    (fun hd ld => if F.lt hd ld && F.lt (F.val 0) ld then ld else F.val 0)
    high_diff low_diff
  let plus_dm_smooth := ewmSpan p.adx_length plus_dm
  let minus_dm_smooth := ewmSpan p.adx_length minus_dm
  let atr := Indicators.atr high low close p.atr_length
  let plus_di := List.zipWith (fun dm a => F.div (F.mul (F.val 100) dm) a)
    plus_dm_smooth atr
  let minus_di := List.zipWith (fun dm a => F.div (F.mul (F.val 100) dm) a)
    minus_dm_smooth atr
  let dx := List.zipWith
    (fun pdi mdi => F.div (F.mul (F.val 100) (F.fabs (F.sub pdi mdi))) (F.add pdi mdi))
    plus_di minus_di
  ewmSpan p.adx_length dx

/-- The indicator columns added by `calculate_indicators` that
`generate_signals` reads. -/
structure Cols where
  fast_period : List ℕ
  slow_period : List ℕ
  adx : List F
deriving Repr

/-- `calculate_indicators(data)`: compute the columns once per `run`. -/
def columns (p : Params) (high low close : List F) : Cols :=
  ⟨(List.range close.length).map (fast_period p high low close),
   (List.range close.length).map (slow_period p high low close),
   calculate_adx p high low close⟩

/-- `calculate_ema(series, period)`: last value of the prefix ewm. -/
def calculate_ema (series : List F) (period : ℕ) : F :=
  (ewmSpan period series).getLastD F.nan

/-- One call of `AdaptiveEMAV2_1.generate_signals(data, idx)` against the
precomputed columns.  `prev` is the `(prev_ema_fast, prev_ema_slow)`
instance state; before warmup the call returns None without touching it.
Entry requires the bullish EMA crossover AND `adx >= adx_threshold`; exit
is the bare bearish crossunder. -/
def generate_signals (p : Params) (cols : Cols) (close : List F) (idx : ℕ)
    (prev : Option (F × F)) : Option Sig × Option (F × F) :=
  let warmup := max (max p.atr_length p.vol_length) p.adx_length + 10
  if idx < warmup then (none, prev)
  else
    let fp := cols.fast_period.getD idx 0
    let sp := cols.slow_period.getD idx 0
    let adx := cols.adx.getD idx F.nan
    let ema_fast := calculate_ema (close.take (idx + 1)) fp
    let ema_slow := calculate_ema (close.take (idx + 1)) sp
    let sig : Option Sig :=
      match prev with
      | none => none
      | some q =>
        if F.le q.1 q.2 && F.lt ema_slow ema_fast then
          (if F.le (F.val p.adx_threshold) adx then some Sig.BUY else none)
        else if F.le q.2 q.1 && F.lt ema_fast ema_slow then some Sig.SELL
        else none
    (sig, some (ema_fast, ema_slow))

/-- A full `AdaptiveEMAV2_1` backtest: extract the OHLC columns, compute
the indicator columns once, run the base engine with `generate_signals`.
`s0` is the crossover memory the instance carries into this run (`None`
for a freshly constructed strategy; the previous run's final state when
`run` is invoked a second time, since `run` does not reset it). -/
def strategyRun (p : Params) (initial_capital : ℚ) (s0 : Option (F × F))
    (bars : List Bar) : Except String BaseStrategy.Metrics × RunSt (Option (F × F)) :=
  let high := bars.map fun b => F.val b.high
  let low := bars.map fun b => F.val b.low
  let close := bars.map fun b => F.val b.close
  let cols := columns p high low close
  BaseStrategy.run (fun idx st => generate_signals p cols close idx st)
    initial_capital s0 bars

end V21

/-!
## Concrete evaluation series

A 15-bar series with a flat prefix and three swings, driving the
idempotence and forced-liquidation scenarios below, with small v2.1
parameters (valid per the constructor checks: `fast_base < slow_base`,
multipliers `>= 1`, `adx_threshold >= 0`).
-/

/-- Test bar with close `c`, high `c+1`, low `c-1`, timestamp `i`. -/
def mkBar (i : ℕ) (c : ℚ) : Bar := ⟨i, c + 1, c - 1, c, 0⟩

/-- The 15-bar evaluation series. -/
def c2bars : List Bar :=
  [mkBar 0 100, mkBar 1 100, mkBar 2 100, mkBar 3 100, mkBar 4 100, mkBar 5 100,
   mkBar 6 100, mkBar 7 100, mkBar 8 100, mkBar 9 100, mkBar 10 100,
   mkBar 11 110, mkBar 12 90, mkBar 13 120, mkBar 14 95]

/-- v2.1 parameters
`(fast_base 1, slow_base 2, mults 1.8, atr 1, vol_threshold 60,
vol_length 1, adx_length 1, adx_threshold 0)`. -/
def pC2 : V21.Params := ⟨1, 2, 9/5, 9/5, 1, 60, 1, 1, 0⟩

/-- High column of the evaluation series. -/
def c2H : List F :=
  [F.val 101, F.val 101, F.val 101, F.val 101, F.val 101, F.val 101, F.val 101,
   F.val 101, F.val 101, F.val 101, F.val 101, F.val 111, F.val 91, F.val 121, F.val 96]

/-- Low column of the evaluation series. -/
def c2L : List F :=
  [F.val 99, F.val 99, F.val 99, F.val 99, F.val 99, F.val 99, F.val 99,
   F.val 99, F.val 99, F.val 99, F.val 99, F.val 109, F.val 89, F.val 119, F.val 94]

/-- Close column of the evaluation series. -/
def c2C : List F :=
  [F.val 100, F.val 100, F.val 100, F.val 100, F.val 100, F.val 100, F.val 100,
   F.val 100, F.val 100, F.val 100, F.val 100, F.val 110, F.val 90, F.val 120, F.val 95]

/-- Expected `fast_period` column (never in the high-vol regime). -/
def c2fpCol : List ℕ := [1, 1, 1, 1, 1, 1, 1, 1, 1, 1, 1, 1, 1, 1, 1]

/-- Expected `slow_period` column. -/
def c2spCol : List ℕ := [2, 2, 2, 2, 2, 2, 2, 2, 2, 2, 2, 2, 2, 2, 2]

/-- Expected ADX column. -/
def c2adxCol : List F :=
  [F.nan, F.nan, F.nan, F.nan, F.nan, F.nan, F.nan, F.nan, F.nan, F.nan, F.nan,
   F.val 100, F.val 100, F.val 100, F.val 100]

/-!
## Forced liquidation at an entry bar

The same series truncated to 14 bars: the v2.1 crossover fires BUY at the
final bar (index 13), so the end-of-run forced liquidation sells at the
very same bar and timestamp.
-/

/-- The 14-bar series (the evaluation series without its final bar). -/
def c3bars : List Bar :=
  [mkBar 0 100, mkBar 1 100, mkBar 2 100, mkBar 3 100, mkBar 4 100, mkBar 5 100,
   mkBar 6 100, mkBar 7 100, mkBar 8 100, mkBar 9 100, mkBar 10 100,
   mkBar 11 110, mkBar 12 90, mkBar 13 120]

/-- High column of the 14-bar series. -/
def c3H : List F :=
  [F.val 101, F.val 101, F.val 101, F.val 101, F.val 101, F.val 101, F.val 101,
   F.val 101, F.val 101, F.val 101, F.val 101, F.val 111, F.val 91, F.val 121]

/-- Low column of the 14-bar series. -/
def c3L : List F :=
  [F.val 99, F.val 99, F.val 99, F.val 99, F.val 99, F.val 99, F.val 99,
   F.val 99, F.val 99, F.val 99, F.val 99, F.val 109, F.val 89, F.val 119]

/-- Close column of the 14-bar series. -/
def c3C : List F :=
  [F.val 100, F.val 100, F.val 100, F.val 100, F.val 100, F.val 100, F.val 100,
   F.val 100, F.val 100, F.val 100, F.val 100, F.val 110, F.val 90, F.val 120]

/-- Expected ADX column of the 14-bar series. -/
def c3adxCol : List F :=
  [F.nan, F.nan, F.nan, F.nan, F.nan, F.nan, F.nan, F.nan, F.nan, F.nan, F.nan,
   F.val 100, F.val 100, F.val 100]

/-!
## Trade pairing

The canonical shape of the trade list produced by the `run` loop: a
sequence of completed (BUY, SELL) round trips, possibly followed by the
pending BUY of a still-open position.
-/

/-- Flatten a list of (BUY, SELL) round trips into a trade list. -/
def interleave : List (TradeRec × TradeRec) → List TradeRec
  | [] => []
  | q :: qs => q.1 :: q.2 :: interleave qs

/-- Every round trip is a BUY paired with a no-earlier SELL. -/
def GoodPairs (ps : List (TradeRec × TradeRec)) : Prop :=
  ∀ q ∈ ps, q.1.isBuy = true ∧ q.2.isSell = true ∧ TradeRec.ts q.1 ≤ TradeRec.ts q.2

/-- The pairing property claimed of a completed run's trade list (with
the ordering weakened from strict to non-strict). -/
def PairOK (trades : List TradeRec) : Prop :=
  (trades.filter TradeRec.isBuy).length = (trades.filter TradeRec.isSell).length ∧
  ∀ pr ∈ (trades.filter TradeRec.isBuy).zip (trades.filter TradeRec.isSell),
    TradeRec.ts pr.1 ≤ TradeRec.ts pr.2

/-- The loop invariant of `BaseStrategy.runLoop` at the remaining index
list `l`: positive capital, and the trade list is a canonical round-trip
sequence — closed exactly when flat, with a pending BUY whose timestamp
is a lower bound for the final bar and for every bar still to be
processed when long. -/
def RunInv (bars : List Bar) (l : List ℕ) {σ : Type} (s : RunSt σ) : Prop :=
  0 < s.capital ∧
  ∃ ps, GoodPairs ps ∧
    ((s.position = 0 ∧ s.trades = interleave ps) ∨
     (0 < s.position ∧ ∃ b, b.isBuy = true ∧ s.trades = interleave ps ++ [b] ∧
        TradeRec.ts b ≤ (bars.getD (bars.length - 1) default).ts ∧
        ∀ j ∈ l, TradeRec.ts b ≤ (bars.getD j default).ts))

/-- Two-bar series for the pairing witness. -/
def tb2 : List Bar := [mkBar 0 100, mkBar 1 101]

/-!
## Zero-trade runs crash `_calculate_metrics`
-/

/-- Three bars: fewer than the v2.1 warmup requirement. -/
def c7bars : List Bar := [mkBar 0 100, mkBar 1 101, mkBar 2 102]

/-!
## Optimization sweep (`src/python/optimize.py`, `optimize_ticker` /
`calculate_score`)

The innermost sweep body (lines 348-415): count the combination, evaluate
it inside `try/except` (an exception only bumps the skipped counter), the
early-termination filters, scoring, and best-result tracking.  The
evaluation function is abstract here (it stands for
`run_strategy_optimized`); `calculate_sharpe_ratio` is likewise abstract
because its annualisation factor `sqrt(6500)` is irrational — none of the
claimed properties depend on its value.  Scores are computed on rational
payloads: the filter has already established that `total_return` is
finite when a score is computed.
-/

namespace Optimize

/-- The fields of a `run_strategy_optimized` result dictionary consumed by
the sweep (`profit_factor = none` models `np.inf`). -/
structure Result where
  total_return : F
  total_trades : ℕ
  max_drawdown : ℚ
  early_return : ℚ
  win_rate : ℚ
  profit_factor : Option ℚ
  equity_curve : List ℚ
deriving Repr

/-- `np.clip(x, lo, hi)`. -/
def clip (x lo hi : ℚ) : ℚ := min (max x lo) hi

/-- `calculate_score(result, sharpe_ratio, calmar_ratio)` (lines 242-262):
the 0.35/0.25/0.20/0.10/0.10 weighted sum of clipped component scores. -/
def calculate_score (r : Result) (sharpe calmar : ℚ) : ℚ :=
  let return_score := clip r.total_return.toQ 0 100
  let sharpe_score := clip (sharpe * 20) 0 100
  let calmar_score := clip (calmar * 10) 0 100
  let pf_score := clip (match r.profit_factor with | some pf => pf * 20 | none => 0) 0 100
  let wr_score := r.win_rate
  return_score * (35 / 100) + sharpe_score * (25 / 100) + calmar_score * (20 / 100)
    + pf_score * (10 / 100) + wr_score * (10 / 100)

/-- The early-termination filters (lines 383-386): pass iff the return is
finite, at least 5 trades, drawdown at most 50 and early return at least
-10. -/
def passes_filters (r : Result) : Bool :=
  r.total_return.isFinite && decide (5 ≤ r.total_trades)
    && decide (r.max_drawdown ≤ 50) && decide (-10 ≤ r.early_return)

/-- `calmar = total_return / max_drawdown if max_drawdown > 0 else 0`. -/
def calmarOf (r : Result) : ℚ :=
  if 0 < r.max_drawdown then r.total_return.toQ / r.max_drawdown else 0

/-- The composite score the sweep assigns to a valid result. -/
def scoreOf (sharpeOf : List ℚ → ℚ) (r : Result) : ℚ :=
  calculate_score r (sharpeOf r.equity_curve) (calmarOf r)

/-- The sweep's running accumulator: best (result, score), tested, valid
and skipped counters. -/
structure SweepSt where
  best : Option (Result × ℚ)
  tested : ℕ
  valid : ℕ
  skipped : ℕ
deriving Repr

/-- One iteration of the sweep body: `tested_count += 1`, evaluate inside
`try/except` (`Except.error` models the exception path), filter, score,
and update the best result when `score > best_result['score']` (or when
there is no best yet). -/
def sweepStep {C : Type} (sharpeOf : List ℚ → ℚ) (eval : C → Except Unit Result)
    (st : SweepSt) (combo : C) : SweepSt :=
  let st1 := { st with tested := st.tested + 1 }
  match eval combo with
  | Except.error _ => { st1 with skipped := st1.skipped + 1 }
  | Except.ok r =>
    if passes_filters r then
      let score := scoreOf sharpeOf r
      let newBest :=
        match st1.best with
        | none => some (r, score)
        | some b => if b.2 < score then some (r, score) else some b
      { st1 with valid := st1.valid + 1, best := newBest }
    else { st1 with skipped := st1.skipped + 1 }

/-- The whole parameter sweep over an enumerated combination list. -/
def optimizeSweep {C : Type} (sharpeOf : List ℚ → ℚ)
    (eval : C → Except Unit Result) (combos : List C) : SweepSt :=
  combos.foldl (sweepStep sharpeOf eval) ⟨none, 0, 0, 0⟩

end Optimize

/-- A concrete sweep for exercising the sweep contract: combo 0 evaluates
to a result passing every filter, combo 1 raises, combo 2 evaluates but
fails the minimum-trades filter. -/
def c9wR0 : Optimize.Result := ⟨F.val 12, 6, 10, 5, 50, some 2, []⟩

def c9wRBad : Optimize.Result := ⟨F.val 12, 2, 10, 5, 50, some 2, []⟩

def c9wEval : ℕ → Except Unit Optimize.Result := fun n =>
  if n = 0 then Except.ok c9wR0
  else if n = 1 then Except.error () else Except.ok c9wRBad

def c9wSharpe : List ℚ → ℚ := fun _ => 1

def c9wCombos : List ℕ := [0, 1, 2]

/-- C10: the regime selector is total and sends a NaN percentile rank to
HIGH, because both NaN comparisons are false and the else branch is taken. -/
theorem get_volatility_regime_nan_is_HIGH :
    ∀ low_percentile high_percentile : F,
      get_volatility_regime F.nan low_percentile high_percentile = Regime.HIGH := by
  intro lo hi
  cases lo <;> cases hi <;> rfl

/-- C4, amended: the numba EMA (`calculate_ema_numba`) satisfies the
claimed contract — NaN (undefined) below index `period-1`, the simple
average of the first `period` prices at index `period-1`, and the
recurrence `ema[i] = alpha*prices[i] + (1-alpha)*ema[i-1]` with
`alpha = 2/(period+1)` above it.  (The pandas `ema` of
`src/python/indicators.py` does not: see the counterexample.) -/
theorem c4_calculate_ema_numba_contract (prices : List F) (period : ℕ)
    (h1 : 1 ≤ period) (h2 : period ≤ prices.length) :
    (Numba.calculate_ema_numba prices period).length = prices.length ∧
    (∀ i, i < period - 1 →
      (Numba.calculate_ema_numba prices period).getD i (F.val 0) = F.nan) ∧
    (Numba.calculate_ema_numba prices period).getD (period - 1) (F.val 0) =
      fmean (prices.take period) ∧
    (∀ i, period ≤ i → i < prices.length →
      (Numba.calculate_ema_numba prices period).getD i (F.val 0) =
        F.add (F.mul (F.val (2 / ((period : ℚ) + 1))) (prices.getD i (F.val 0)))
          (F.mul (F.val (1 - 2 / ((period : ℚ) + 1)))
            ((Numba.calculate_ema_numba prices period).getD (i - 1) (F.val 0)))) := by
  have hnlt : ¬ prices.length < period := not_lt.mpr h2
  unfold Numba.calculate_ema_numba
  simp only [hnlt, if_false]
  set a : ℚ := 2 / ((period : ℚ) + 1) with ha
  set f : F → F → F :=
    fun prev x => F.add (F.mul (F.val a) x) (F.mul (F.val (1 - a)) prev) with hf
  set seed : F := fmean (prices.take period) with hseed
  have hlenr : (List.replicate (period - 1) F.nan).length = period - 1 := by
    simp
  have hlens : (List.scanl f seed (prices.drop period)).length
      = prices.length - period + 1 := by
    simp [List.length_scanl]
  refine ⟨?_, ?_, ?_, ?_⟩
  · simp only [List.length_append, hlenr, hlens]
    omega
  · intro i hi
    rw [List.getD_append _ _ _ _ (by omega)]
    rw [List.getD_eq_getElem _ _ (by simpa using hi)]
    simp
  · rw [List.getD_append_right _ _ _ _ (by omega)]
    rw [hlenr, Nat.sub_self]
    rw [List.getD_eq_getElem _ _ (by omega)]
    exact List.getElem_scanl_zero
  · intro i hpi hilen
    have hub : (i - period) + 1 < (List.scanl f seed (prices.drop period)).length := by
      rw [hlens]; omega
    have hub2 : i - period < (List.scanl f seed (prices.drop period)).length := by
      rw [hlens]; omega
    have hdl : i - period < (prices.drop period).length := by
      simp; omega
    have hget : (prices.drop period)[i - period]
        = prices.getD i (F.val 0) := by
      rw [List.getElem_drop, List.getD_eq_getElem _ _ (by omega)]
      congr 1
      omega
    have hR : (List.replicate (period - 1) F.nan ++
          List.scanl f seed (prices.drop period)).getD (i - 1) (F.val 0)
        = (List.scanl f seed (prices.drop period))[i - period] := by
      rw [List.getD_append_right _ _ _ _ (by omega), hlenr]
      have hprev : i - 1 - (period - 1) = i - period := by omega
      rw [hprev, List.getD_eq_getElem _ _ hub2]
    rw [List.getD_append_right _ _ _ _ (by omega), hlenr]
    have hidx : i - (period - 1) = (i - period) + 1 := by omega
    rw [hidx, List.getD_eq_getElem _ _ hub, List.getElem_succ_scanl hub, hR, hget]

/-- C4, counterexample: the pandas `ema` of `src/python/indicators.py`
(`ewm(span=period, adjust=False)`) violates the claimed contract at
`prices = [0, 100]`, `period = 2`: index `0 < period-1` is a defined value
(`0.0`, not NaN), and index `period-1 = 1` is `200/3`, not the simple
average `50`. -/
theorem c4_pandas_ema_refutes :
    (Indicators.ema [F.val 0, F.val 100] 2).getD 0 (F.val 0) ≠ F.nan ∧
    (Indicators.ema [F.val 0, F.val 100] 2).getD 1 (F.val 0) ≠
      fmean ([F.val 0, F.val 100].take 2) := by
  have h0 : (Indicators.ema [F.val 0, F.val 100] 2).getD 0 (F.val 0) = F.val 0 := by
    norm_num [Indicators.ema, ewmSpan, ewmGo, ewmStep, F.isNan, F.mul, F.add, F.div]
  have h1 : (Indicators.ema [F.val 0, F.val 100] 2).getD 1 (F.val 0) = F.val (200 / 3) := by
    norm_num [Indicators.ema, ewmSpan, ewmGo, ewmStep, F.isNan, F.mul, F.add, F.div]
  have h2 : fmean ([F.val 0, F.val 100].take 2) = F.val 50 := by
    norm_num [fmean, fsum, F.add, F.div]
  refine ⟨by rw [h0]; exact fun h => F.noConfusion h, ?_⟩
  intro h
  rw [h1, h2] at h
  exact absurd (F.val.inj h) (by norm_num)

/-- C4, witness: the numba EMA contract instantiated at
`prices = [2, 4, 6]`, `period = 2`; the seed at index `period-1 = 1`
evaluates to the simple average `3`. -/
theorem c4_contract_witness :
    1 ≤ 2 ∧ 2 ≤ [F.val 2, F.val 4, F.val 6].length ∧
      (Numba.calculate_ema_numba [F.val 2, F.val 4, F.val 6] 2).getD 1 (F.val 0) = F.val 3 := by
  have h := c4_calculate_ema_numba_contract [F.val 2, F.val 4, F.val 6] 2
    (by norm_num) (by norm_num)
  refine ⟨by norm_num, by norm_num, ?_⟩
  rw [h.2.2.1]
  norm_num [fmean, fsum, F.add, F.div]

/-- Evaluate an element of `(List.range n).map f`. -/
theorem getD_range_map {α : Type} (f : ℕ → α) (n i : ℕ) (h : i < n) (d : α) :
    ((List.range n).map f).getD i d = f i := by
  rw [List.getD_eq_getElem _ _ (by simpa using h)]
  simp

/-- C5, counterexample: with a single-sample series (window shorter than
20), `calculate_volatility_rank` in `src/python/backtest.py` reports the
rank `0.0` — a defined value that is neither NaN nor the claimed default
of 50. -/
theorem c5_warmup_rank_zero_refutes :
    (Backtest.calculate_volatility_rank [F.val 1] 71).getD 0 F.nan = F.val 0 ∧
    (F.val 0 : F) ≠ F.nan ∧ (F.val 0 : F) ≠ F.val 50 := by
  refine ⟨?_, fun h => F.noConfusion h, ?_⟩
  · norm_num [Backtest.calculate_volatility_rank]
  · intro h
    exact absurd (F.val.inj h) (by norm_num)

/-- C5, amended: at every index `i`, writing `window` for the trailing
slice of length at most `volatility_length` ending at `i` inclusive:
the backtest.py rank is `0` when the window holds fewer than 20 samples
and `count(window <= current) / len(window) * 100` otherwise (NaN entries
count in the denominator and compare false); the numba rank is NaN
(undefined) when the window holds fewer than `min_history` samples or the
current value is NaN, and otherwise counts only non-NaN values with the
number of valid values as denominator.  Neither implementation ever
defaults to 50 during warmup. -/
theorem c5_volatility_rank_contract (na : List F) (L mh i : ℕ) (hi : i < na.length) :
    ((((na.take (i + 1)).drop (i + 1 - L)).length < 20 →
        (Backtest.calculate_volatility_rank na L).getD i F.nan = F.val 0) ∧
      (¬ (((na.take (i + 1)).drop (i + 1 - L)).length < 20) →
        (Backtest.calculate_volatility_rank na L).getD i F.nan =
          F.val (((((na.take (i + 1)).drop (i + 1 - L)).countP
              fun v => F.le v (na.getD i F.nan)) : ℚ)
            / ((((na.take (i + 1)).drop (i + 1 - L)).length : ℚ)) * 100))) ∧
    ((((na.take (i + 1)).drop (i + 1 - L)).length < mh →
        (Numba.calculate_volatility_rank_numba na L mh).getD i F.nan = F.nan) ∧
      ((na.getD i F.nan).isNan = true →
        (Numba.calculate_volatility_rank_numba na L mh).getD i F.nan = F.nan) ∧
      (¬ (((na.take (i + 1)).drop (i + 1 - L)).length < mh) →
        (na.getD i F.nan).isNan = false →
        0 < (((na.take (i + 1)).drop (i + 1 - L)).filter fun v => !v.isNan).length →
        (Numba.calculate_volatility_rank_numba na L mh).getD i F.nan =
          F.val ((((((na.take (i + 1)).drop (i + 1 - L)).filter fun v => !v.isNan).countP
              fun v => F.le v (na.getD i F.nan)) : ℚ)
            / (((((na.take (i + 1)).drop (i + 1 - L)).filter fun v => !v.isNan).length : ℚ))
            * 100))) := by
  unfold Backtest.calculate_volatility_rank Numba.calculate_volatility_rank_numba
  rw [getD_range_map _ _ _ hi, getD_range_map _ _ _ hi]
  refine ⟨⟨fun h => by simp only [if_pos h], fun h => by simp only [if_neg h]⟩,
    fun h => by simp only [if_pos h], fun h => ?_, fun h1 h2 h3 => ?_⟩
  · by_cases hw : (List.drop (i + 1 - L) (List.take (i + 1) na)).length < mh
    · simp only [if_pos hw]
    · simp only [if_neg hw, h, if_true]
  · simp only [if_neg h1, h2, Bool.false_eq_true, if_false, if_pos h3]

/-- C5, witness: the rank contract instantiated at the one-element series
`[1]` with `volatility_length = min_history = 1`: the numba rank is
`1/1 * 100 = 100`. -/
theorem c5_contract_witness :
    0 < ([F.val 1] : List F).length ∧
      (Numba.calculate_volatility_rank_numba [F.val 1] 1 1).getD 0 F.nan = F.val 100 := by
  have h := (c5_volatility_rank_contract [F.val 1] 1 1 0 (by norm_num)).2.2.2
    (by norm_num) (by simp [F.isNan]) (by simp [F.isNan])
  refine ⟨by norm_num, ?_⟩
  rw [h]
  norm_num [List.countP, List.countP.go, F.le, F.isNan]

theorem foldl_min_le_init (l : List ℚ) (a : ℚ) : l.foldl min a ≤ a := by
  induction l generalizing a with
  | nil => simp
  | cons x xs ih =>
    calc (x :: xs).foldl min a = xs.foldl min (min a x) := rfl
    _ ≤ min a x := ih _
    _ ≤ a := min_le_left _ _

theorem foldl_min_le_mem (l : List ℚ) (a y : ℚ) (hy : y ∈ l) : l.foldl min a ≤ y := by
  induction l generalizing a with
  | nil => simp at hy
  | cons x xs ih =>
    rcases List.mem_cons.mp hy with rfl | hy'
    · calc (y :: xs).foldl min a = xs.foldl min (min a y) := rfl
      _ ≤ min a y := foldl_min_le_init _ _
      _ ≤ y := min_le_right _ _
    · exact ih _ hy'

theorem foldl_min_eq_init_iff (l : List ℚ) (a : ℚ) :
    l.foldl min a = a ↔ ∀ y ∈ l, a ≤ y := by
  constructor
  · intro h y hy
    have := foldl_min_le_mem l a y hy
    linarith
  · intro h
    induction l generalizing a with
    | nil => rfl
    | cons x xs ih =>
      have hax : min a x = a := min_eq_left (h x (List.mem_cons_self _ _))
      calc (x :: xs).foldl min a = xs.foldl min (min a x) := rfl
      _ = xs.foldl min a := by rw [hax]
      _ = a := ih _ fun y hy => h y (List.mem_cons_of_mem _ hy)

theorem foldl_max_neg (l : List ℚ) (a : ℚ) :
    (l.map fun q => -q).foldl max (-a) = -(l.foldl min a) := by
  induction l generalizing a with
  | nil => rfl
  | cons x xs ih =>
    calc ((x :: xs).map fun q => -q).foldl max (-a)
        = (xs.map fun q => -q).foldl max (max (-a) (-x)) := rfl
    _ = (xs.map fun q => -q).foldl max (-(min a x)) := by rw [max_neg_neg]
    _ = -(xs.foldl min (min a x)) := ih _
    _ = -((x :: xs).foldl min a) := rfl

theorem zipWith_dd_neg (E C : List ℚ) :
    List.zipWith (fun e p => (p - e) / p * 100) E C =
      (List.zipWith (fun e p => (e - p) / p * 100) E C).map fun q => -q := by
  induction E generalizing C with
  | nil => simp
  | cons e es ih =>
    cases C with
    | nil => simp
    | cons p ps =>
      simp only [List.zipWith_cons_cons, List.map_cons, ih]
      congr 1
      ring

theorem maxSpec_eq_neg_min (E : List ℚ) (hne : E ≠ []) :
    maxDrawdownSpec E = -(listMin (drawdownCol E)) := by
  cases E with
  | nil => exact absurd rfl hne
  | cons x xs =>
    unfold maxDrawdownSpec drawdownCol
    rw [zipWith_dd_neg]
    show listMax (((x - x) / x * 100 :: List.zipWith _ xs (cummaxGo x xs)).map fun q => -q)
      = -(listMin ((x - x) / x * 100 :: List.zipWith _ xs (cummaxGo x xs)))
    simp only [List.map_cons, listMax, listMin]
    exact foldl_max_neg _ _

theorem dd_head_zero (x : ℚ) : (x - x) / x * 100 = 0 := by
  rw [sub_self, zero_div, zero_mul]

theorem dd_tail_nonpos (xs : List ℚ) (m : ℚ) (hm : 0 < m) (hpos : ∀ x ∈ xs, 0 < x) :
    ∀ y ∈ List.zipWith (fun e p => (e - p) / p * 100) xs (cummaxGo m xs), y ≤ 0 := by
  induction xs generalizing m with
  | nil => simp
  | cons x xs ih =>
    intro y hy
    simp only [cummaxGo, List.zipWith_cons_cons, List.mem_cons] at hy
    rcases hy with rfl | hy'
    · have hxle : x ≤ max m x := le_max_right _ _
      have hp : (0 : ℚ) < max m x := lt_max_of_lt_left hm
      have h1 : (x - max m x) / max m x ≤ 0 :=
        div_nonpos_iff.mpr (Or.inr ⟨by linarith, le_of_lt hp⟩)
      nlinarith
    · exact ih (max m x) (lt_max_of_lt_left hm)
        (fun z hz => hpos z (List.mem_cons_of_mem _ hz)) y hy'

theorem dd_tail_zero_iff (xs : List ℚ) (m : ℚ) (hm : 0 < m) (hpos : ∀ x ∈ xs, 0 < x) :
    (∀ y ∈ List.zipWith (fun e p => (e - p) / p * 100) xs (cummaxGo m xs), y = 0) ↔
      List.Chain' (· ≤ ·) (m :: xs) := by
  induction xs generalizing m with
  | nil => simp
  | cons x xs ih =>
    have hp : (0 : ℚ) < max m x := lt_max_of_lt_left hm
    have hhead : (x - max m x) / max m x * 100 = 0 ↔ m ≤ x := by
      constructor
      · intro h
        have h1 : (x - max m x) / max m x = 0 := by linarith
        have h2 : x - max m x = 0 := by
          by_contra hne
          exact hne (by
            have := div_eq_zero_iff.mp h1
            rcases this with h3 | h3
            · exact h3
            · exact absurd h3 (ne_of_gt hp))
        have : x = max m x := by linarith
        exact max_eq_right_iff.mp this.symm
      · intro h
        rw [max_eq_right h, sub_self, zero_div, zero_mul]
    constructor
    · intro hall
      rw [List.chain'_cons]
      have h1 : m ≤ x := hhead.mp (hall ((x - max m x) / max m x * 100)
        (by simp [cummaxGo]))
      refine ⟨h1, ?_⟩
      have hmx : max m x = x := max_eq_right h1
      have := (ih x (hpos x (List.mem_cons_self _ _))
        (fun z hz => hpos z (List.mem_cons_of_mem _ hz))).mp ?_
      · exact this
      · intro y hy
        apply hall
        simp only [cummaxGo, List.zipWith_cons_cons, List.mem_cons]
        right
        rwa [hmx]
    · intro hch
      rw [List.chain'_cons] at hch
      obtain ⟨h1, h2⟩ := hch
      have hmx : max m x = x := max_eq_right h1
      intro y hy
      simp only [cummaxGo, List.zipWith_cons_cons, List.mem_cons, hmx] at hy
      rcases hy with rfl | hy'
      · rw [sub_self, zero_div, zero_mul]
      · exact (ih x (hpos x (List.mem_cons_self _ _))
          (fun z hz => hpos z (List.mem_cons_of_mem _ hz))).mpr h2 y hy'

/-- C6, amended: for every nonempty positive equity curve, the
`performance.py` metric `abs(drawdown.min())` equals the claimed formula
`max over i of (running_peak(E)_i - E_i)/running_peak(E)_i * 100`, is
non-negative, and vanishes exactly when the curve is non-decreasing; the
`base_strategy.py` metric, however, reports the negated value
`drawdown.min()` (non-positive), not the claimed positive-signed
percentage. -/
theorem c6_drawdown_contract (E : List ℚ) (hne : E ≠ []) (hpos : ∀ x ∈ E, 0 < x) :
    Performance.max_drawdown E = maxDrawdownSpec E ∧
    0 ≤ Performance.max_drawdown E ∧
    (Performance.max_drawdown E = 0 ↔ List.Chain' (· ≤ ·) E) ∧
    BaseStrategy.max_drawdown_reported E = -(maxDrawdownSpec E) := by
  cases E with
  | nil => exact absurd rfl hne
  | cons x xs =>
    have hx : 0 < x := hpos x (List.mem_cons_self _ _)
    have hxs : ∀ z ∈ xs, 0 < z := fun z hz => hpos z (List.mem_cons_of_mem _ hz)
    have hdd : drawdownCol (x :: xs) =
        0 :: List.zipWith (fun e p => (e - p) / p * 100) xs (cummaxGo x xs) := by
      unfold drawdownCol
      show ((x - x) / x * 100) :: _ = _
      rw [dd_head_zero]
    have hminle : listMin (drawdownCol (x :: xs)) ≤ 0 := by
      rw [hdd]
      exact foldl_min_le_init _ _
    have habs : Performance.max_drawdown (x :: xs) = -(listMin (drawdownCol (x :: xs))) := by
      unfold Performance.max_drawdown
      exact abs_of_nonpos hminle
    have hspec := maxSpec_eq_neg_min (x :: xs) hne
    refine ⟨by rw [habs, hspec], ?_, ?_, by rw [hspec, neg_neg]; rfl⟩
    · rw [habs]; linarith
    · rw [habs]
      constructor
      · intro h
        have hmin0 : listMin (drawdownCol (x :: xs)) = 0 := by linarith
        rw [hdd] at hmin0
        have hall := (foldl_min_eq_init_iff _ 0).mp hmin0
        have hz : ∀ y ∈ List.zipWith (fun e p => (e - p) / p * 100) xs (cummaxGo x xs),
            y = 0 := fun y hy =>
          le_antisymm (dd_tail_nonpos xs x hx hxs y hy) (hall y hy)
        exact (dd_tail_zero_iff xs x hx hxs).mp hz
      · intro hch
        have hz := (dd_tail_zero_iff xs x hx hxs).mpr hch
        have : listMin (drawdownCol (x :: xs)) = 0 := by
          rw [hdd]
          exact (foldl_min_eq_init_iff _ 0).mpr fun y hy => le_of_eq (hz y hy).symm
        rw [this, neg_zero]

/-- C6, counterexample: on the equity curve `[100, 50]`, the
`base_strategy.py` drawdown metric is `-50`, a negative number, refuting
the claim that the reported max drawdown is non-negative for every input
and equals the positive-signed formula (which gives `50` here). -/
theorem c6_base_negative_refutes :
    BaseStrategy.max_drawdown_reported [100, 50] = -50 ∧
      ¬ 0 ≤ BaseStrategy.max_drawdown_reported [100, 50] := by
  have h : BaseStrategy.max_drawdown_reported [100, 50] = -50 := by
    norm_num [BaseStrategy.max_drawdown_reported, listMin, drawdownCol, cummax, cummaxGo]
  exact ⟨h, by rw [h]; norm_num⟩

/-- C6, witness: the drawdown contract instantiated at the positive curve
`[4, 2, 6]`; the reported `performance.py` value and the specification
formula agree and both evaluate to `50`. -/
theorem c6_drawdown_contract_witness :
    ([4, 2, 6] : List ℚ) ≠ [] ∧ (∀ x ∈ ([4, 2, 6] : List ℚ), 0 < x) ∧
      Performance.max_drawdown [4, 2, 6] = maxDrawdownSpec [4, 2, 6] ∧
      Performance.max_drawdown [4, 2, 6] = 50 := by
  have h := c6_drawdown_contract [4, 2, 6] (by simp) (by norm_num)
  refine ⟨by simp, by norm_num, h.1, ?_⟩
  norm_num [Performance.max_drawdown, listMin, drawdownCol, cummax, cummaxGo]

theorem length_diffList (xs : List F) : (diffList xs).length = xs.length := by
  cases xs with
  | nil => rfl
  | cons x xs => simp [diffList]

theorem length_rollingMean (w : ℕ) (xs : List F) :
    (rollingMean w xs).length = xs.length := by
  simp [rollingMean]

theorem length_avgGain (close : List F) (n : ℕ) :
    (V22.avgGain close n).length = close.length := by
  simp [V22.avgGain, length_rollingMean, V22.rsiGain, length_diffList]

theorem length_avgLoss (close : List F) (n : ℕ) :
    (V22.avgLoss close n).length = close.length := by
  simp [V22.avgLoss, length_rollingMean, V22.rsiLoss, length_diffList]

/-- C8, amended: wherever the rolling average loss is exactly `0`, the RSI
of `AdaptiveEMAV2_2.calculate_rsi` is `100` when the rolling average gain
is positive (`rs = inf`, `100/(1+rs) = 0`), but NaN — not 100 — when the
average gain is also `0` (`rs = 0/0 = NaN` propagates). -/
theorem c8_rsi_contract (close : List F) (len i : ℕ) (hi : i < close.length)
    (hloss : (V22.avgLoss close len).getD i F.nan = F.val 0) :
    (∀ g : ℚ, (V22.avgGain close len).getD i F.nan = F.val g → 0 < g →
      (V22.calculate_rsi close len).getD i F.nan = F.val 100) ∧
    ((V22.avgGain close len).getD i F.nan = F.val 0 →
      (V22.calculate_rsi close len).getD i F.nan = F.nan) := by
  have hig : i < (V22.avgGain close len).length := by rw [length_avgGain]; exact hi
  have hil : i < (V22.avgLoss close len).length := by rw [length_avgLoss]; exact hi
  have hiz : i < (List.zipWith F.div (V22.avgGain close len) (V22.avgLoss close len)).length := by
    rw [List.length_zipWith]
    omega
  have hrs : (V22.calculate_rsi close len).getD i F.nan =
      F.sub (F.val 100) (F.div (F.val 100) (F.add (F.val 1)
        (F.div ((V22.avgGain close len).getD i F.nan)
          ((V22.avgLoss close len).getD i F.nan)))) := by
    unfold V22.calculate_rsi
    rw [List.getD_eq_getElem _ _ (by rw [List.length_map]; exact hiz)]
    rw [List.getElem_map, List.getElem_zipWith]
    rw [List.getD_eq_getElem _ _ hig, List.getD_eq_getElem _ _ hil]
  constructor
  · intro g hg hgpos
    rw [hrs, hg, hloss]
    have h0 : ¬ g = 0 := ne_of_gt hgpos
    simp only [F.div, if_neg, h0, if_false, hgpos, if_true, if_pos]
    norm_num [F.add, F.div, F.sub, F.neg]
  · intro hg
    rw [hrs, hg, hloss]
    norm_num [F.add, F.div, F.sub, F.neg]

/-- C8, counterexample: on the flat close series `[100, 100, 100]` with
`rsi_length = 2`, the average loss at index 2 is `0`, yet the RSI is NaN
(from `rs = 0/0`), not the claimed `100`. -/
theorem c8_flat_series_refutes :
    (V22.avgLoss [F.val 100, F.val 100, F.val 100] 2).getD 2 F.nan = F.val 0 ∧
    (V22.calculate_rsi [F.val 100, F.val 100, F.val 100] 2).getD 2 F.nan = F.nan ∧
    (F.nan ≠ F.val 100) := by
  refine ⟨?_, ?_, fun h => F.noConfusion h⟩ <;>
    norm_num [V22.calculate_rsi, V22.avgGain, V22.avgLoss, V22.rsiGain, V22.rsiLoss,
      diffList, rollingMean, fmean, fsum, List.range_succ,
      F.lt, F.le, F.add, F.div, F.sub, F.neg, F.mul, F.isNan]

/-- C8, witness: the RSI contract instantiated on the rising series
`[100, 110, 120]` with `rsi_length = 2`: the average loss at index 2 is
`0`, the average gain is `10 > 0`, and the RSI evaluates to `100`. -/
theorem c8_rsi_contract_witness :
    2 < ([F.val 100, F.val 110, F.val 120] : List F).length ∧
    (V22.avgLoss [F.val 100, F.val 110, F.val 120] 2).getD 2 F.nan = F.val 0 ∧
    (V22.calculate_rsi [F.val 100, F.val 110, F.val 120] 2).getD 2 F.nan = F.val 100 := by
  have hloss : (V22.avgLoss [F.val 100, F.val 110, F.val 120] 2).getD 2 F.nan = F.val 0 := by
    norm_num [V22.avgLoss, V22.rsiLoss, diffList, rollingMean, fmean, fsum,
      List.range_succ, F.lt, F.add, F.div, F.sub, F.neg, F.isNan]
  have hgain : (V22.avgGain [F.val 100, F.val 110, F.val 120] 2).getD 2 F.nan = F.val 10 := by
    norm_num [V22.avgGain, V22.rsiGain, diffList, rollingMean, fmean, fsum,
      List.range_succ, F.lt, F.add, F.div, F.sub, F.neg, F.isNan]
  exact ⟨by norm_num,
    hloss,
    (c8_rsi_contract [F.val 100, F.val 110, F.val 120] 2 2 (by norm_num) hloss).1
      10 hgain (by norm_num)⟩

/-- The backtest.py signal fires BUY only on the bullish crossover of the
regime-selected EMA pair and SELL only on the mirrored bearish one. -/
theorem backtest_signal_only_on_cross (p : Backtest.Params) (high low close : List F)
    (i : ℕ) :
    (Backtest.signalAt p high low close i = some Sig.BUY →
      F.le ((Backtest.regime_emas p close (Backtest.regimeAt p high low close i)).1.getD
          (i - 1) F.nan)
        ((Backtest.regime_emas p close (Backtest.regimeAt p high low close i)).2.getD
          (i - 1) F.nan) = true ∧
      F.lt ((Backtest.regime_emas p close (Backtest.regimeAt p high low close i)).2.getD
          i F.nan)
        ((Backtest.regime_emas p close (Backtest.regimeAt p high low close i)).1.getD
          i F.nan) = true) ∧
    (Backtest.signalAt p high low close i = some Sig.SELL →
      F.le ((Backtest.regime_emas p close (Backtest.regimeAt p high low close i)).2.getD
          (i - 1) F.nan)
        ((Backtest.regime_emas p close (Backtest.regimeAt p high low close i)).1.getD
          (i - 1) F.nan) = true ∧
      F.lt ((Backtest.regime_emas p close (Backtest.regimeAt p high low close i)).1.getD
          i F.nan)
        ((Backtest.regime_emas p close (Backtest.regimeAt p high low close i)).2.getD
          i F.nan) = true) := by
  unfold Backtest.signalAt
  dsimp only
  split_ifs with h1 h2 h3 h4
  · exact ⟨(fun h => nomatch h), (fun h => nomatch h)⟩
  · exact ⟨(fun h => nomatch h), (fun h => nomatch h)⟩
  · rw [Bool.and_eq_true] at h3
    exact ⟨fun _ => h3, fun h => Sig.noConfusion (Option.some.inj h)⟩
  · rw [Bool.and_eq_true] at h4
    exact ⟨fun h => Sig.noConfusion (Option.some.inj h), fun _ => h4⟩
  · exact ⟨(fun h => nomatch h), (fun h => nomatch h)⟩

theorem length_ewmGo (a : ℚ) (s : EwmSt) (xs : List F) :
    (ewmGo a s xs).length = xs.length := by
  induction xs generalizing s with
  | nil => rfl
  | cons x xs ih => simp [ewmGo, ih]

theorem length_shiftList (xs : List F) : (shiftList xs).length = xs.length := by
  cases xs with
  | nil => rfl
  | cons x xs => simp [shiftList]

theorem ewmGo_take (a : ℚ) (s : EwmSt) (xs : List F) (n : ℕ) :
    ewmGo a s (xs.take n) = (ewmGo a s xs).take n := by
  induction xs generalizing s n with
  | nil => simp [ewmGo]
  | cons x xs ih =>
    cases n with
    | zero => simp [ewmGo]
    | succ m =>
      simp only [List.take_succ_cons, ewmGo]
      rw [ih]

theorem ewmSpan_take (span : ℕ) (xs : List F) (n : ℕ) :
    ewmSpan span (xs.take n) = (ewmSpan span xs).take n :=
  ewmGo_take _ _ _ _

theorem ema_take (series : List F) (period n : ℕ) :
    Indicators.ema (series.take n) period = (Indicators.ema series period).take n :=
  ewmSpan_take _ _ _

theorem take_cons_take (y : F) (l : List F) (n m : ℕ) (h : m ≤ n + 1) :
    (y :: l.take n).take m = (y :: l).take m := by
  cases m with
  | zero => simp
  | succ k =>
    rw [List.take_succ_cons, List.take_succ_cons, List.take_take,
      min_eq_left (by omega)]

theorem shiftList_eq (xs : List F) : shiftList xs = (F.nan :: xs).take xs.length := by
  cases xs with
  | nil => rfl
  | cons x xs =>
    show F.nan :: (x :: xs).dropLast = (F.nan :: x :: xs).take (xs.length + 1)
    rw [List.dropLast_eq_take, List.take_succ_cons]
    simp

theorem shiftList_take (xs : List F) (n : ℕ) :
    shiftList (xs.take n) = (shiftList xs).take n := by
  rw [shiftList_eq, shiftList_eq, List.take_take, List.length_take]
  exact take_cons_take _ _ _ _ (by omega)

theorem zipWith_take_right (f : F → F → F) (l1 l2 : List F) (k : ℕ)
    (h : l1.length ≤ k) : List.zipWith f l1 (l2.take k) = List.zipWith f l1 l2 := by
  induction l1 generalizing l2 k with
  | nil => simp
  | cons x xs ih =>
    cases l2 with
    | nil => simp
    | cons y ys =>
      cases k with
      | zero => simp at h
      | succ m =>
        simp only [List.take_succ_cons, List.zipWith_cons_cons]
        rw [ih _ m (by simpa using h)]

theorem zipWith_cons_self_take (f : F → F → F) (n : ℕ) (x : F) (xs : List F) :
    List.zipWith f (xs.take n) (x :: xs) = (List.zipWith f xs (x :: xs)).take n := by
  induction xs generalizing x n with
  | nil => simp
  | cons y ys ih =>
    cases n with
    | zero => simp
    | succ m =>
      simp only [List.take_succ_cons, List.zipWith_cons_cons]
      rw [ih]

theorem diffList_take (xs : List F) (n : ℕ) :
    diffList (xs.take n) = (diffList xs).take n := by
  cases xs with
  | nil => simp [diffList]
  | cons x xs =>
    cases n with
    | zero => simp [diffList]
    | succ m =>
      show F.nan :: List.zipWith F.sub (xs.take m) (x :: xs.take m)
        = (F.nan :: List.zipWith F.sub xs (x :: xs)).take (m + 1)
      rw [List.take_succ_cons]
      congr 1
      have h1 : x :: xs.take m = (x :: xs).take (m + 1) := by rw [List.take_succ_cons]
      rw [h1, zipWith_take_right _ _ _ _ (by rw [List.length_take]; omega), zipWith_cons_self_take]

theorem atr_take (high low close : List F) (p n : ℕ) :
    Indicators.atr (high.take n) (low.take n) (close.take n) p
      = (Indicators.atr high low close p).take n := by
  unfold Indicators.atr
  dsimp only
  rw [shiftList_take, ← List.take_zipWith, ← List.take_zipWith, ← List.take_zipWith,
    List.map_take, List.map_take, ← List.take_zipWith, ← List.take_zipWith, ewmSpan_take]

theorem normalized_atr_take (high low close : List F) (al n : ℕ) :
    Backtest.normalized_atr (high.take n) (low.take n) (close.take n) al
      = (Backtest.normalized_atr high low close al).take n := by
  unfold Backtest.normalized_atr
  rw [atr_take, ← List.take_zipWith]

theorem getD_take_eq (l : List F) (n i : ℕ) (h : i < n) :
    (l.take n).getD i F.nan = l.getD i F.nan := by
  by_cases hl : i < l.length
  · rw [List.getD_eq_getElem _ _ (by simp; omega), List.getD_eq_getElem _ _ hl]
    exact List.getElem_take _
  · rw [List.getD_eq_default _ _ (by simp; omega), List.getD_eq_default _ _ (by omega)]

theorem calc_vol_rank_take (xs : List F) (L n : ℕ) :
    Backtest.calculate_volatility_rank (xs.take n) L
      = (Backtest.calculate_volatility_rank xs L).take n := by
  apply List.ext_getElem
  · simp [Backtest.calculate_volatility_rank]
  · intro j h1 h2
    have hj : j < n ∧ j < xs.length := by
      simp only [Backtest.calculate_volatility_rank, List.length_map, List.length_range,
        List.length_take] at h1
      omega
    simp only [Backtest.calculate_volatility_rank, List.getElem_take, List.getElem_map,
      List.getElem_range]
    have hw : ((xs.take n).take (j + 1)) = xs.take (j + 1) := by
      rw [List.take_take, min_eq_left (by omega)]
    rw [hw, getD_take_eq _ _ _ (by omega)]

theorem vol_ranks_take (p : Backtest.Params) (high low close : List F) (n : ℕ) :
    Backtest.vol_ranks p (high.take n) (low.take n) (close.take n)
      = (Backtest.vol_ranks p high low close).take n := by
  unfold Backtest.vol_ranks
  rw [normalized_atr_take, calc_vol_rank_take]

theorem regime_emas_take (p : Backtest.Params) (close : List F) (n : ℕ) (r : Regime) :
    Backtest.regime_emas p (close.take n) r
      = ((Backtest.regime_emas p close r).1.take n, (Backtest.regime_emas p close r).2.take n) := by
  cases r <;> simp [Backtest.regime_emas, ema_take]

/-- The backtest.py signal is truncation-invariant: the signal at bar `i`
is unchanged when all bars after `i` are removed from the input, because
each indicator value consumed at `i` depends only on bars `0..i`. -/
theorem backtest_signal_truncation (p : Backtest.Params) (high low close : List F) (i : ℕ) :
    Backtest.signalAt p (high.take (i + 1)) (low.take (i + 1)) (close.take (i + 1)) i
      = Backtest.signalAt p high low close i := by
  unfold Backtest.signalAt Backtest.regimeAt
  rw [vol_ranks_take, getD_take_eq _ _ _ (by omega)]
  rw [regime_emas_take]
  dsimp only
  rw [getD_take_eq _ _ _ (by omega), getD_take_eq _ _ _ (by omega),
    getD_take_eq _ _ _ (by omega), getD_take_eq _ _ _ (by omega)]

/-- The v2_2 signal step emits BUY only when the crossover holds AND the
RSI and volume filters pass, and SELL only on the bare mirrored
crossunder (no filters on the SELL branch). -/
theorem v22_signal_structure (p : V22.Params) (high low close volume : List F)
    (idx : ℕ) (prev : Option (F × F)) :
    ((V22.generate_signals p high low close volume idx prev).1 = some Sig.BUY →
      ∃ pf ps, prev = some (pf, ps) ∧ F.le pf ps = true ∧
        F.lt (V22.calculate_ema (close.take (idx + 1)) (V22.slow_period p high low close idx))
          (V22.calculate_ema (close.take (idx + 1)) (V22.fast_period p high low close idx))
          = true ∧
        F.lt ((V22.calculate_rsi close p.rsi_length).getD idx F.nan)
          (F.val p.rsi_threshold) = true ∧
        F.lt ((rollingMean p.volume_ma_length volume).getD idx F.nan)
          (volume.getD idx F.nan) = true) ∧
    ((V22.generate_signals p high low close volume idx prev).1 = some Sig.SELL →
      ∃ pf ps, prev = some (pf, ps) ∧ F.le ps pf = true ∧
        F.lt (V22.calculate_ema (close.take (idx + 1)) (V22.fast_period p high low close idx))
          (V22.calculate_ema (close.take (idx + 1)) (V22.slow_period p high low close idx))
          = true) := by
  unfold V22.generate_signals
  dsimp only
  set ef := V22.calculate_ema (close.take (idx + 1)) (V22.fast_period p high low close idx)
  set es := V22.calculate_ema (close.take (idx + 1)) (V22.slow_period p high low close idx)
  set r := (V22.calculate_rsi close p.rsi_length).getD idx F.nan
  set vma := (rollingMean p.volume_ma_length volume).getD idx F.nan
  set vv := volume.getD idx F.nan
  by_cases hw : idx < max (max p.atr_length p.vol_length)
      (max p.rsi_length p.volume_ma_length) + 10
  · rw [if_pos hw]
    exact ⟨(fun h => nomatch h), (fun h => nomatch h)⟩
  · rw [if_neg hw]
    cases prev with
    | none => exact ⟨(fun h => nomatch h), (fun h => nomatch h)⟩
    | some pf_ps =>
      dsimp only
      by_cases h1 : (F.le pf_ps.1 pf_ps.2 && F.lt es ef) = true
      · rw [if_pos h1]
        by_cases h2 : (F.lt r (F.val p.rsi_threshold) && F.lt vma vv) = true
        · rw [if_pos h2]
          rw [Bool.and_eq_true] at h1 h2
          exact ⟨fun _ => ⟨pf_ps.1, pf_ps.2, rfl, h1.1, h1.2, h2.1, h2.2⟩,
            fun h => Sig.noConfusion (Option.some.inj h)⟩
        · rw [if_neg h2]
          exact ⟨(fun h => nomatch h), (fun h => nomatch h)⟩
      · rw [if_neg h1]
        by_cases h3 : (F.le pf_ps.2 pf_ps.1 && F.lt ef es) = true
        · rw [if_pos h3]
          rw [Bool.and_eq_true] at h3
          exact ⟨fun h => Sig.noConfusion (Option.some.inj h),
            fun _ => ⟨pf_ps.1, pf_ps.2, rfl, h3.1, h3.2⟩⟩
        · rw [if_neg h3]
          exact ⟨(fun h => nomatch h), (fun h => nomatch h)⟩

theorem rollingMean_take (w : ℕ) (xs : List F) (n : ℕ) :
    rollingMean w (xs.take n) = (rollingMean w xs).take n := by
  apply List.ext_getElem
  · simp [rollingMean]
  · intro j h1 h2
    have hj : j < n ∧ j < xs.length := by
      simp only [rollingMean, List.length_map, List.length_range, List.length_take] at h1
      omega
    simp only [rollingMean, List.getElem_take, List.getElem_map, List.getElem_range]
    rw [List.take_take, min_eq_left (by omega)]

theorem rollingVolPct_take (w : ℕ) (xs : List F) (n : ℕ) :
    rollingVolPct w (xs.take n) = (rollingVolPct w xs).take n := by
  apply List.ext_getElem
  · simp [rollingVolPct]
  · intro j h1 h2
    have hj : j < n ∧ j < xs.length := by
      simp only [rollingVolPct, List.length_map, List.length_range, List.length_take] at h1
      omega
    simp only [rollingVolPct, List.getElem_take, List.getElem_map, List.getElem_range]
    rw [List.take_take, min_eq_left (by omega), getD_take_eq _ _ _ (by omega)]

theorem calculate_rsi_take (c : List F) (w n : ℕ) :
    V22.calculate_rsi (c.take n) w = (V22.calculate_rsi c w).take n := by
  unfold V22.calculate_rsi V22.avgGain V22.avgLoss V22.rsiGain V22.rsiLoss
  rw [diffList_take, List.map_take, List.map_take, rollingMean_take, rollingMean_take,
    ← List.take_zipWith, List.map_take]

theorem relative_volatility_take (p : V22.Params) (high low close : List F) (n : ℕ) :
    V22.relative_volatility p (high.take n) (low.take n) (close.take n)
      = (V22.relative_volatility p high low close).take n := by
  unfold V22.relative_volatility
  rw [atr_take, ← List.take_zipWith]

theorem vol_percentile_take (p : V22.Params) (high low close : List F) (n : ℕ) :
    V22.vol_percentile p (high.take n) (low.take n) (close.take n)
      = (V22.vol_percentile p high low close).take n := by
  unfold V22.vol_percentile
  rw [relative_volatility_take, rollingVolPct_take]

theorem is_high_vol_take (p : V22.Params) (high low close : List F) (idx : ℕ) :
    V22.is_high_vol p (high.take (idx + 1)) (low.take (idx + 1)) (close.take (idx + 1)) idx
      = V22.is_high_vol p high low close idx := by
  unfold V22.is_high_vol
  rw [vol_percentile_take, getD_take_eq _ _ _ (by omega)]

theorem fast_period_take (p : V22.Params) (high low close : List F) (idx : ℕ) :
    V22.fast_period p (high.take (idx + 1)) (low.take (idx + 1)) (close.take (idx + 1)) idx
      = V22.fast_period p high low close idx := by
  unfold V22.fast_period
  rw [is_high_vol_take]

theorem slow_period_take (p : V22.Params) (high low close : List F) (idx : ℕ) :
    V22.slow_period p (high.take (idx + 1)) (low.take (idx + 1)) (close.take (idx + 1)) idx
      = V22.slow_period p high low close idx := by
  unfold V22.slow_period
  rw [is_high_vol_take]

/-- The v2_2 signal step is truncation-invariant: the signal (and the
stored EMA pair) at bar `idx` is unchanged when all bars after `idx` are
removed, because every consumed column value is computed from bars
`0..idx` only. -/
theorem v22_signal_truncation (p : V22.Params) (high low close volume : List F)
    (idx : ℕ) (prev : Option (F × F)) :
    V22.generate_signals p (high.take (idx + 1)) (low.take (idx + 1)) (close.take (idx + 1))
        (volume.take (idx + 1)) idx prev
      = V22.generate_signals p high low close volume idx prev := by
  unfold V22.generate_signals
  rw [fast_period_take, slow_period_take, calculate_rsi_take,
    getD_take_eq _ _ _ (by omega), getD_take_eq _ _ _ (by omega), rollingMean_take,
    getD_take_eq _ _ _ (by omega), List.take_take, min_self]

/-- C1: the signal generators emit BUY only when the bullish crossover
`fast[i-1] <= slow[i-1] and fast[i] > slow[i]` of the selected EMA pair
holds (the v2_2 variant additionally requires its RSI and volume
AND-filters, which sit on the BUY branch only), emit SELL only on the
mirrored bearish condition with no extra filters, and both generators are
truncation-invariant: the signal at bar `i` is unchanged when all bars
after `i` are removed from the input. -/
theorem c1_signal_generator_contract :
    (∀ (p : Backtest.Params) (high low close : List F) (i : ℕ),
      (Backtest.signalAt p high low close i = some Sig.BUY →
        F.le ((Backtest.regime_emas p close (Backtest.regimeAt p high low close i)).1.getD
            (i - 1) F.nan)
          ((Backtest.regime_emas p close (Backtest.regimeAt p high low close i)).2.getD
            (i - 1) F.nan) = true ∧
        F.lt ((Backtest.regime_emas p close (Backtest.regimeAt p high low close i)).2.getD
            i F.nan)
          ((Backtest.regime_emas p close (Backtest.regimeAt p high low close i)).1.getD
            i F.nan) = true) ∧
      (Backtest.signalAt p high low close i = some Sig.SELL →
        F.le ((Backtest.regime_emas p close (Backtest.regimeAt p high low close i)).2.getD
            (i - 1) F.nan)
          ((Backtest.regime_emas p close (Backtest.regimeAt p high low close i)).1.getD
            (i - 1) F.nan) = true ∧
        F.lt ((Backtest.regime_emas p close (Backtest.regimeAt p high low close i)).1.getD
            i F.nan)
          ((Backtest.regime_emas p close (Backtest.regimeAt p high low close i)).2.getD
            i F.nan) = true)) ∧
    (∀ (p : Backtest.Params) (high low close : List F) (i : ℕ),
      Backtest.signalAt p (high.take (i + 1)) (low.take (i + 1)) (close.take (i + 1)) i
        = Backtest.signalAt p high low close i) ∧
    (∀ (p : V22.Params) (high low close volume : List F) (idx : ℕ)
        (prev : Option (F × F)),
      ((V22.generate_signals p high low close volume idx prev).1 = some Sig.BUY →
        ∃ pf ps, prev = some (pf, ps) ∧ F.le pf ps = true ∧
          F.lt (V22.calculate_ema (close.take (idx + 1))
              (V22.slow_period p high low close idx))
            (V22.calculate_ema (close.take (idx + 1))
              (V22.fast_period p high low close idx)) = true ∧
          F.lt ((V22.calculate_rsi close p.rsi_length).getD idx F.nan)
            (F.val p.rsi_threshold) = true ∧
          F.lt ((rollingMean p.volume_ma_length volume).getD idx F.nan)
            (volume.getD idx F.nan) = true) ∧
      ((V22.generate_signals p high low close volume idx prev).1 = some Sig.SELL →
        ∃ pf ps, prev = some (pf, ps) ∧ F.le ps pf = true ∧
          F.lt (V22.calculate_ema (close.take (idx + 1))
              (V22.fast_period p high low close idx))
            (V22.calculate_ema (close.take (idx + 1))
              (V22.slow_period p high low close idx)) = true)) ∧
    (∀ (p : V22.Params) (high low close volume : List F) (idx : ℕ)
        (prev : Option (F × F)),
      V22.generate_signals p (high.take (idx + 1)) (low.take (idx + 1))
          (close.take (idx + 1)) (volume.take (idx + 1)) idx prev
        = V22.generate_signals p high low close volume idx prev) :=
  ⟨backtest_signal_only_on_cross, backtest_signal_truncation,
    v22_signal_structure, v22_signal_truncation⟩

/-- C1, witness: on closes `[1, 2]` with fast period 1 and slow period 2,
`signalAt` fires BUY at bar 1, and the contract instantiates there: the
bullish crossover condition holds. -/
theorem c1_contract_witness :
    Backtest.signalAt ⟨1, 2, 1, 2, 1, 2, 1, 1, 50, 75, 10000⟩ [F.val 2, F.val 3]
        [F.val 0, F.val 1] [F.val 1, F.val 2] 1 = some Sig.BUY ∧
    F.lt ((Backtest.regime_emas ⟨1, 2, 1, 2, 1, 2, 1, 1, 50, 75, 10000⟩ [F.val 1, F.val 2]
        (Backtest.regimeAt ⟨1, 2, 1, 2, 1, 2, 1, 1, 50, 75, 10000⟩ [F.val 2, F.val 3]
          [F.val 0, F.val 1] [F.val 1, F.val 2] 1)).2.getD 1 F.nan)
      ((Backtest.regime_emas ⟨1, 2, 1, 2, 1, 2, 1, 1, 50, 75, 10000⟩ [F.val 1, F.val 2]
        (Backtest.regimeAt ⟨1, 2, 1, 2, 1, 2, 1, 1, 50, 75, 10000⟩ [F.val 2, F.val 3]
          [F.val 0, F.val 1] [F.val 1, F.val 2] 1)).1.getD 1 F.nan) = true := by
  have hbuy : Backtest.signalAt ⟨1, 2, 1, 2, 1, 2, 1, 1, 50, 75, 10000⟩ [F.val 2, F.val 3]
      [F.val 0, F.val 1] [F.val 1, F.val 2] 1 = some Sig.BUY := by
    norm_num [Backtest.signalAt, Backtest.vol_ranks, Backtest.normalized_atr,
      Backtest.calculate_volatility_rank, Backtest.regimeAt, Backtest.regime_emas,
      Indicators.atr, Indicators.ema, ewmSpan, ewmGo, ewmStep, shiftList, mx2,
      get_volatility_regime, List.range_succ, F.lt, F.le, F.add, F.sub, F.neg, F.mul,
      F.div, F.isNan, F.fabs]
  exact ⟨hbuy, ((c1_signal_generator_contract.1 _ _ _ _ 1).1 hbuy).2⟩

set_option maxHeartbeats 2000000 in
theorem c2ev_maps :
    c2bars.map (fun b => F.val b.high) = c2H ∧
    c2bars.map (fun b => F.val b.low) = c2L ∧
    c2bars.map (fun b => F.val b.close) = c2C := by
  refine ⟨?_, ?_, ?_⟩ <;> norm_num [c2bars, mkBar, c2H, c2L, c2C]

set_option maxHeartbeats 4000000 in
theorem c2ev_vp :
    V21.vol_percentile pC2 c2H c2L c2C =
      [F.val 0, F.val 0, F.val 0, F.val 0, F.val 0, F.val 0, F.val 0, F.val 0,
       F.val 0, F.val 0, F.val 0, F.val 0, F.val 0, F.val 0, F.val 0] := by
  norm_num [V21.vol_percentile, V21.relative_volatility, Indicators.atr, ewmSpan, ewmGo,
    ewmStep, shiftList, mx2, rollingVolPct, pC2, c2H, c2L, c2C, F.lt, F.le, F.add, F.sub,
    F.neg, F.mul, F.div, F.isNan, F.fabs, List.range_succ, List.countP_cons]

set_option maxHeartbeats 4000000 in
theorem c2ev_adx :
    V21.calculate_adx pC2 c2H c2L c2C = c2adxCol := by
  norm_num [V21.calculate_adx, Indicators.atr, ewmSpan, ewmGo, ewmStep, shiftList, mx2,
    diffList, pC2, c2H, c2L, c2C, c2adxCol, F.lt, F.le, F.add, F.sub, F.neg, F.mul,
    F.div, F.isNan, F.fabs, abs_of_pos]

set_option maxHeartbeats 2000000 in
theorem c2ev_cols :
    V21.columns pC2 c2H c2L c2C = ⟨c2fpCol, c2spCol, c2adxCol⟩ := by
  simp only [V21.columns]
  have hlen : c2C.length = 15 := by norm_num [c2C]
  have hp1 : pC2.fast_base = 1 := rfl
  have hp2 : pC2.slow_base = 2 := rfl
  have hp3 : pC2.vol_threshold = 60 := rfl
  rw [hlen]
  norm_num [V21.fast_period, V21.slow_period, V21.is_high_vol, c2ev_vp, c2ev_adx,
    hp1, hp2, hp3, List.range_succ, F.le, c2fpCol, c2spCol]

set_option maxHeartbeats 8000000 in
theorem c2ev_run1 :
    (V21.strategyRun pC2 10000 none c2bars).2.trades =
      [TradeRec.buy 13 120 (250 / 3) 10000,
       TradeRec.sell 14 95 (250 / 3) (23750 / 3) (-125 / 6)] ∧
    (V21.strategyRun pC2 10000 none c2bars).2.sig_state =
      some (F.val 95, F.val (8150 / 81)) := by
  have hmh : c2bars.map (fun b => F.val b.high) = c2H := c2ev_maps.1
  have hml : c2bars.map (fun b => F.val b.low) = c2L := c2ev_maps.2.1
  have hmc : c2bars.map (fun b => F.val b.close) = c2C := c2ev_maps.2.2
  refine ⟨?_, ?_⟩ <;>
  · simp only [V21.strategyRun, hmh, hml, hmc, c2ev_cols]
    norm_num [BaseStrategy.run, BaseStrategy.runLoop, BaseStrategy.runStep,
      BaseStrategy.execute_buy, BaseStrategy.execute_sell, BaseStrategy.calc_equity,
      V21.generate_signals, V21.calculate_ema, ewmSpan, ewmGo, ewmStep, pC2, c2fpCol,
      c2spCol, c2adxCol, c2C, c2bars, mkBar, F.lt, F.le, F.add, F.sub, F.neg, F.mul,
      F.div, F.isNan, List.range_succ]

set_option maxHeartbeats 8000000 in
theorem c2ev_run2 :
    (V21.strategyRun pC2 10000 (some (F.val 95, F.val (8150 / 81))) c2bars).2.trades =
      [TradeRec.buy 11 110 (1000 / 11) 10000,
       TradeRec.sell 12 90 (1000 / 11) (90000 / 11) (-200 / 11),
       TradeRec.buy 13 120 (750 / 11) (90000 / 11),
       TradeRec.sell 14 95 (750 / 11) (71250 / 11) (-125 / 6)] := by
  have hmh : c2bars.map (fun b => F.val b.high) = c2H := c2ev_maps.1
  have hml : c2bars.map (fun b => F.val b.low) = c2L := c2ev_maps.2.1
  have hmc : c2bars.map (fun b => F.val b.close) = c2C := c2ev_maps.2.2
  simp only [V21.strategyRun, hmh, hml, hmc, c2ev_cols]
  norm_num [BaseStrategy.run, BaseStrategy.runLoop, BaseStrategy.runStep,
    BaseStrategy.execute_buy, BaseStrategy.execute_sell, BaseStrategy.calc_equity,
    V21.generate_signals, V21.calculate_ema, ewmSpan, ewmGo, ewmStep, pC2, c2fpCol,
    c2spCol, c2adxCol, c2C, c2bars, mkBar, F.lt, F.le, F.add, F.sub, F.neg, F.mul,
    F.div, F.isNan, List.range_succ]

/-- C2: `AdaptiveEMAV2_1.run` is not idempotent.  On the 15-bar series
`c2bars`, a freshly constructed strategy records 2 trades; invoking `run`
again on the identical inputs records 4 trades, because the
`prev_ema_fast` / `prev_ema_slow` crossover memory written in
`generate_signals` is initialised in `__init__` but not reset by `run`,
so the stale final EMA pair of the first run manufactures a spurious
crossover at the first post-warmup bar of the second run. -/
theorem c2_rerun_not_idempotent :
    (V21.strategyRun pC2 10000 none c2bars).2.trades.length = 2 ∧
    (V21.strategyRun pC2 10000
        (V21.strategyRun pC2 10000 none c2bars).2.sig_state c2bars).2.trades.length = 4 ∧
    (V21.strategyRun pC2 10000 none c2bars).2.trades ≠
      (V21.strategyRun pC2 10000
        (V21.strategyRun pC2 10000 none c2bars).2.sig_state c2bars).2.trades := by
  have h1 := c2ev_run1
  have h2 := c2ev_run2
  refine ⟨by rw [h1.1]; rfl, ?_, ?_⟩
  · rw [h1.2, h2]
    rfl
  · rw [h1.1, h1.2, h2]
    intro h
    have := congrArg List.length h
    simp at this

set_option maxHeartbeats 2000000 in
theorem c3ev_maps :
    c3bars.map (fun b => F.val b.high) = c3H ∧
    c3bars.map (fun b => F.val b.low) = c3L ∧
    c3bars.map (fun b => F.val b.close) = c3C := by
  refine ⟨?_, ?_, ?_⟩ <;> norm_num [c3bars, mkBar, c3H, c3L, c3C]

set_option maxHeartbeats 4000000 in
theorem c3ev_vp :
    V21.vol_percentile pC2 c3H c3L c3C =
      [F.val 0, F.val 0, F.val 0, F.val 0, F.val 0, F.val 0, F.val 0, F.val 0,
       F.val 0, F.val 0, F.val 0, F.val 0, F.val 0, F.val 0] := by
  norm_num [V21.vol_percentile, V21.relative_volatility, Indicators.atr, ewmSpan, ewmGo,
    ewmStep, shiftList, mx2, rollingVolPct, pC2, c3H, c3L, c3C, F.lt, F.le, F.add, F.sub,
    F.neg, F.mul, F.div, F.isNan, F.fabs, List.range_succ, List.countP_cons]

set_option maxHeartbeats 4000000 in
theorem c3ev_adx :
    V21.calculate_adx pC2 c3H c3L c3C = c3adxCol := by
  norm_num [V21.calculate_adx, Indicators.atr, ewmSpan, ewmGo, ewmStep, shiftList, mx2,
    diffList, pC2, c3H, c3L, c3C, c3adxCol, F.lt, F.le, F.add, F.sub, F.neg, F.mul,
    F.div, F.isNan, F.fabs, abs_of_pos]

set_option maxHeartbeats 2000000 in
theorem c3ev_cols :
    V21.columns pC2 c3H c3L c3C =
      ⟨[1, 1, 1, 1, 1, 1, 1, 1, 1, 1, 1, 1, 1, 1],
       [2, 2, 2, 2, 2, 2, 2, 2, 2, 2, 2, 2, 2, 2], c3adxCol⟩ := by
  simp only [V21.columns]
  have hlen : c3C.length = 14 := by norm_num [c3C]
  have hp1 : pC2.fast_base = 1 := rfl
  have hp2 : pC2.slow_base = 2 := rfl
  have hp3 : pC2.vol_threshold = 60 := rfl
  rw [hlen]
  norm_num [V21.fast_period, V21.slow_period, V21.is_high_vol, c3ev_vp, c3ev_adx,
    hp1, hp2, hp3, List.range_succ, F.le]

set_option maxHeartbeats 8000000 in
theorem c3ev_run :
    (V21.strategyRun pC2 10000 none c3bars).2.trades =
      [TradeRec.buy 13 120 (250 / 3) 10000,
       TradeRec.sell 13 120 (250 / 3) 10000 0] := by
  have hmh : c3bars.map (fun b => F.val b.high) = c3H := c3ev_maps.1
  have hml : c3bars.map (fun b => F.val b.low) = c3L := c3ev_maps.2.1
  have hmc : c3bars.map (fun b => F.val b.close) = c3C := c3ev_maps.2.2
  simp only [V21.strategyRun, hmh, hml, hmc, c3ev_cols]
  norm_num [BaseStrategy.run, BaseStrategy.runLoop, BaseStrategy.runStep,
    BaseStrategy.execute_buy, BaseStrategy.execute_sell, BaseStrategy.calc_equity,
    V21.generate_signals, V21.calculate_ema, ewmSpan, ewmGo, ewmStep, pC2, c3adxCol,
    c3C, c3bars, mkBar, F.lt, F.le, F.add, F.sub, F.neg, F.mul,
    F.div, F.isNan, List.range_succ]

/-- C3, counterexample: running `AdaptiveEMAV2_1` on the 14-bar series,
the bullish crossover fires BUY at the final bar (timestamp 13) and the
end-of-run forced liquidation emits the paired SELL at the same bar: the
first SELL's timestamp equals — is not strictly after — the first BUY's
timestamp, even though the bar timestamps are strictly increasing. -/
theorem c3_forced_close_same_ts_refutes :
    (V21.strategyRun pC2 10000 none c3bars).2.trades =
      [TradeRec.buy 13 120 (250 / 3) 10000,
       TradeRec.sell 13 120 (250 / 3) 10000 0] ∧
    ¬ (TradeRec.ts (TradeRec.buy 13 120 (250 / 3) 10000) <
        TradeRec.ts (TradeRec.sell 13 120 (250 / 3) 10000 0)) := by
  exact ⟨c3ev_run, by norm_num [TradeRec.ts]⟩

theorem isBuy_false_of_isSell (t : TradeRec) (h : t.isSell = true) : t.isBuy = false := by
  cases t <;> simp [TradeRec.isBuy, TradeRec.isSell] at h ⊢

theorem isSell_false_of_isBuy (t : TradeRec) (h : t.isBuy = true) : t.isSell = false := by
  cases t <;> simp [TradeRec.isBuy, TradeRec.isSell] at h ⊢

theorem interleave_append (ps : List (TradeRec × TradeRec)) (a c : TradeRec) :
    interleave (ps ++ [(a, c)]) = interleave ps ++ [a, c] := by
  induction ps with
  | nil => rfl
  | cons r rs ih => simp [interleave, ih]

theorem filter_buy_interleave (ps : List (TradeRec × TradeRec)) (h : GoodPairs ps) :
    (interleave ps).filter TradeRec.isBuy = ps.map Prod.fst := by
  induction ps with
  | nil => rfl
  | cons q qs ih =>
    have hq := h q (List.mem_cons_self _ _)
    have ih2 := ih fun r hr => h r (List.mem_cons_of_mem _ hr)
    simp [interleave, List.filter_cons, hq.1, isBuy_false_of_isSell q.2 hq.2.1, ih2]

theorem filter_sell_interleave (ps : List (TradeRec × TradeRec)) (h : GoodPairs ps) :
    (interleave ps).filter TradeRec.isSell = ps.map Prod.snd := by
  induction ps with
  | nil => rfl
  | cons q qs ih =>
    have hq := h q (List.mem_cons_self _ _)
    have ih2 := ih fun r hr => h r (List.mem_cons_of_mem _ hr)
    simp [interleave, List.filter_cons, hq.2.1, isSell_false_of_isBuy q.1 hq.1, ih2]

theorem pairOK_of_canonical (ps : List (TradeRec × TradeRec)) (h : GoodPairs ps) :
    PairOK (interleave ps) := by
  constructor
  · rw [filter_buy_interleave ps h, filter_sell_interleave ps h]
    simp
  · rw [filter_buy_interleave ps h, filter_sell_interleave ps h]
    intro pr hpr
    rw [List.zip_map'] at hpr
    obtain ⟨q, hq, hpq⟩ := List.mem_map.mp hpr
    have := (h q hq).2.2
    rw [← hpq]
    exact this

theorem ts_mono (bars : List Bar) (hts : List.Pairwise (· < ·) (bars.map Bar.ts))
    (i j : ℕ) (hij : i ≤ j) (hj : j < bars.length) :
    (bars.getD i default).ts ≤ (bars.getD j default).ts := by
  rcases Nat.lt_or_ge i j with hlt | hge
  · have hi : i < bars.length := by omega
    rw [List.getD_eq_getElem _ _ hi, List.getD_eq_getElem _ _ hj]
    have := List.pairwise_iff_getElem.mp hts i j
      (by simpa using hi) (by simpa using hj) hlt
    simp only [List.getElem_map] at this
    exact le_of_lt this
  · have : i = j := by omega
    rw [this]

theorem runStep_inv {σ : Type} (sig : ℕ → σ → Option Sig × σ) (bars : List Bar)
    (hts : List.Pairwise (· < ·) (bars.map Bar.ts))
    (hcl : ∀ b ∈ bars, 0 < b.close)
    (j : ℕ) (rest : List ℕ) (s : RunSt σ)
    (hj : j < bars.length) (hrest : ∀ k ∈ rest, j < k ∧ k < bars.length)
    (hinv : RunInv bars (j :: rest) s) :
    RunInv bars rest (BaseStrategy.runStep sig bars s j) := by
  obtain ⟨hcap, ps, hps, hstate⟩ := hinv
  have hbar_close : 0 < (bars.getD j default).close := by
    rw [List.getD_eq_getElem _ _ hj]
    exact hcl _ (List.getElem_mem _)
  have hlen_pos : 0 < bars.length := by omega
  have hts_last : (bars.getD j default).ts ≤ (bars.getD (bars.length - 1) default).ts :=
    ts_mono bars hts j (bars.length - 1) (by omega) (by omega)
  have hts_rest : ∀ k ∈ rest, (bars.getD j default).ts ≤ (bars.getD k default).ts :=
    fun k hk => ts_mono bars hts j k (le_of_lt (hrest k hk).1) (hrest k hk).2
  unfold BaseStrategy.runStep
  dsimp only
  cases hsig : (sig j s.sig_state).1 with
  | none =>
    refine ⟨hcap, ps, hps, ?_⟩
    rcases hstate with ⟨h0, htr⟩ | ⟨hpos, b, hb, htr, hlast, hall⟩
    · exact Or.inl ⟨h0, htr⟩
    · exact Or.inr ⟨hpos, b, hb, htr, hlast,
        fun k hk => hall k (List.mem_cons_of_mem _ hk)⟩
  | some sg =>
    cases sg with
    | BUY =>
      dsimp only
      by_cases hpos0 : s.position = 0
      · rw [if_pos hpos0]
        unfold BaseStrategy.execute_buy
        rcases hstate with ⟨h0, htr⟩ | ⟨hpos, b, hb, htr, hlast, hall⟩
        · refine ⟨hcap, ps, hps, Or.inr ⟨div_pos hcap hbar_close, ?_⟩⟩
          refine ⟨TradeRec.buy (bars.getD j default).ts (bars.getD j default).close
            (s.capital / (bars.getD j default).close) s.capital, rfl, ?_, ?_, ?_⟩
          · dsimp only
            rw [htr]
          · exact hts_last
          · exact hts_rest
        · rw [hpos0] at hpos
          exact absurd hpos (lt_irrefl 0)
      · rw [if_neg hpos0]
        refine ⟨hcap, ps, hps, ?_⟩
        rcases hstate with ⟨h0, htr⟩ | ⟨hpos, b, hb, htr, hlast, hall⟩
        · exact Or.inl ⟨h0, htr⟩
        · exact Or.inr ⟨hpos, b, hb, htr, hlast,
            fun k hk => hall k (List.mem_cons_of_mem _ hk)⟩
    | SELL =>
      dsimp only
      by_cases hposgt : 0 < s.position
      · rw [if_pos hposgt]
        unfold BaseStrategy.execute_sell
        rcases hstate with ⟨h0, htr⟩ | ⟨hpos, b, hb, htr, hlast, hall⟩
        · rw [h0] at hposgt
          exact absurd hposgt (lt_irrefl 0)
        · refine ⟨mul_pos hposgt hbar_close,
            ps ++ [(b, TradeRec.sell (bars.getD j default).ts (bars.getD j default).close
              s.position (s.position * (bars.getD j default).close)
              (((bars.getD j default).close - s.entry_price) / s.entry_price * 100))],
            ?_, Or.inl ⟨rfl, ?_⟩⟩
          · intro q hq
            rcases List.mem_append.mp hq with hq1 | hq2
            · exact hps q hq1
            · rcases List.mem_singleton.mp hq2 with rfl
              exact ⟨hb, rfl, hall j (List.mem_cons_self _ _)⟩
          · dsimp only
            rw [htr, interleave_append, List.append_assoc]
            rfl
      · rw [if_neg hposgt]
        refine ⟨hcap, ps, hps, ?_⟩
        rcases hstate with ⟨h0, htr⟩ | ⟨hpos, b, hb, htr, hlast, hall⟩
        · exact Or.inl ⟨h0, htr⟩
        · exact Or.inr ⟨hpos, b, hb, htr, hlast,
            fun k hk => hall k (List.mem_cons_of_mem _ hk)⟩

theorem runFold_inv {σ : Type} (sig : ℕ → σ → Option Sig × σ) (bars : List Bar)
    (hts : List.Pairwise (· < ·) (bars.map Bar.ts))
    (hcl : ∀ b ∈ bars, 0 < b.close) :
    ∀ (l : List ℕ) (s : RunSt σ), (∀ k ∈ l, k < bars.length) →
      List.Pairwise (· < ·) l → RunInv bars l s →
      RunInv bars [] (l.foldl (BaseStrategy.runStep sig bars) s) := by
  intro l
  induction l with
  | nil => exact fun s _ _ h => h
  | cons j rest ih =>
    intro s hb hp hinv
    rw [List.foldl_cons]
    refine ih _ (fun k hk => hb k (List.mem_cons_of_mem _ hk)) hp.of_cons ?_
    exact runStep_inv sig bars hts hcl j rest s (hb j (List.mem_cons_self _ _))
      (fun k hk => ⟨(List.pairwise_cons.mp hp).1 k hk, hb k (List.mem_cons_of_mem _ hk)⟩)
      hinv

/-- C3, amended: after every completed `BaseStrategy.run` loop (forced
liquidation included), over any signal generator, positive initial
capital, positive closes and strictly increasing timestamps, the trade
list holds equally many BUY and SELL records, and the i-th SELL's
timestamp is greater than OR EQUAL TO the i-th BUY's — equality occurs
when the BUY fires at the final bar and the forced liquidation closes it
on the same bar, so "strictly after" does not hold in general. -/
theorem c3_trade_pairing {σ : Type} (sig : ℕ → σ → Option Sig × σ)
    (initial_capital : ℚ) (s0 : σ) (bars : List Bar)
    (hic : 0 < initial_capital)
    (hts : List.Chain' (· < ·) (bars.map Bar.ts))
    (hcl : ∀ b ∈ bars, 0 < b.close) :
    ((BaseStrategy.runLoop sig initial_capital s0 bars).trades.filter
        TradeRec.isBuy).length =
      ((BaseStrategy.runLoop sig initial_capital s0 bars).trades.filter
        TradeRec.isSell).length ∧
    ∀ pr ∈ ((BaseStrategy.runLoop sig initial_capital s0 bars).trades.filter
        TradeRec.isBuy).zip
        ((BaseStrategy.runLoop sig initial_capital s0 bars).trades.filter
          TradeRec.isSell),
      TradeRec.ts pr.1 ≤ TradeRec.ts pr.2 := by
  have hts' := List.chain'_iff_pairwise.mp hts
  have hpair : PairOK (BaseStrategy.runLoop sig initial_capital s0 bars).trades := by
    unfold BaseStrategy.runLoop
    dsimp only
    have hinv0 : RunInv bars (List.range bars.length)
        ({ capital := initial_capital, position := 0, entry_price := 0, trades := [],
           equity_curve := [((bars.getD 0 default).ts, initial_capital)],
           sig_state := s0 } : RunSt σ) :=
      ⟨hic, [], (fun q hq => absurd hq (List.not_mem_nil q)), Or.inl ⟨rfl, rfl⟩⟩
    have hfin := runFold_inv sig bars hts' hcl (List.range bars.length) _
      (fun k hk => List.mem_range.mp hk) (List.pairwise_lt_range _) hinv0
    obtain ⟨hcap, ps, hps, hstate⟩ := hfin
    by_cases hfc : 0 < (((List.range bars.length).foldl (BaseStrategy.runStep sig bars)
        { capital := initial_capital, position := 0, entry_price := 0, trades := [],
          equity_curve := [((bars.getD 0 default).ts, initial_capital)],
          sig_state := s0 }) : RunSt σ).position
    · rw [if_pos hfc]
      rcases hstate with ⟨h0, htr⟩ | ⟨hpos, b, hb, htr, hlast, hall⟩
      · rw [h0] at hfc
        exact absurd hfc (lt_irrefl 0)
      · unfold BaseStrategy.execute_sell
        dsimp only
        rw [htr, List.append_assoc, List.singleton_append, ← interleave_append]
        apply pairOK_of_canonical
        intro q hq
        rcases List.mem_append.mp hq with hq1 | hq2
        · exact hps q hq1
        · rcases List.mem_singleton.mp hq2 with rfl
          exact ⟨hb, rfl, hlast⟩
    · rw [if_neg hfc]
      rcases hstate with ⟨h0, htr⟩ | ⟨hpos, b, hb, htr, hlast, hall⟩
      · rw [htr]
        exact pairOK_of_canonical ps hps
      · exact absurd hpos hfc
  exact hpair

/-- C3, witness: the pairing contract instantiated with a signal
generator that always says BUY on the two-bar series `tb2` — the run
opens at bar 0 and the forced liquidation closes at bar 1, giving one
BUY and one SELL. -/
theorem c3_trade_pairing_witness :
    (0 : ℚ) < 10000 ∧
    ((BaseStrategy.runLoop (fun _ (st : Unit) => (some Sig.BUY, st)) 10000 () tb2).trades.filter
        TradeRec.isBuy).length =
      ((BaseStrategy.runLoop (fun _ (st : Unit) => (some Sig.BUY, st)) 10000 () tb2).trades.filter
        TradeRec.isSell).length := by
  refine ⟨by norm_num, (c3_trade_pairing _ 10000 () tb2 (by norm_num) ?_ ?_).1⟩
  · simp [tb2, mkBar]
  · intro b hb
    simp only [tb2, mkBar, List.mem_cons] at hb
    rcases hb with rfl | hb
    · norm_num
    · rcases hb with rfl | hb
      · norm_num
      · exact absurd hb (List.not_mem_nil b)

/-- Any run whose trade list is empty makes `_calculate_metrics` raise
(`pd.DataFrame([])` has no `'type'` column). -/
theorem calculate_metrics_zero_trades {σ : Type} (ic : ℚ) (s : RunSt σ)
    (bars : List Bar) (h : s.trades = []) :
    BaseStrategy.calculate_metrics ic s bars = Except.error "KeyError: type" := by
  simp [BaseStrategy.calculate_metrics, h]

set_option maxHeartbeats 2000000 in
/-- C7: on a 3-bar series (shorter than warmup), `AdaptiveEMAV2_1.run`
generates zero trades and then `_calculate_metrics` raises
`KeyError: 'type'` — pandas `pd.DataFrame([])` built from the empty trade
list has no `'type'` column — instead of returning the claimed degenerate
result with `win_rate = 0`. -/
theorem c7_zero_trades_keyerror :
    (V21.strategyRun pC2 10000 none c7bars).1 = Except.error "KeyError: type" := by
  have htr : (V21.strategyRun pC2 10000 none c7bars).2.trades = [] := by
    simp only [V21.strategyRun]
    norm_num [BaseStrategy.run, BaseStrategy.runLoop, BaseStrategy.runStep,
      BaseStrategy.calc_equity, V21.generate_signals, pC2, c7bars, mkBar,
      List.range_succ]
  show BaseStrategy.calculate_metrics 10000 (V21.strategyRun pC2 10000 none c7bars).2
    c7bars = Except.error "KeyError: type"
  exact calculate_metrics_zero_trades 10000 _ c7bars htr

theorem sweep_fold_facts {C : Type} (sharpeOf : List ℚ → ℚ)
    (eval : C → Except Unit Optimize.Result) :
    ∀ (combos : List C) (st : Optimize.SweepSt),
      (combos.foldl (Optimize.sweepStep sharpeOf eval) st).tested
          = st.tested + combos.length ∧
      (combos.foldl (Optimize.sweepStep sharpeOf eval) st).valid
          + (combos.foldl (Optimize.sweepStep sharpeOf eval) st).skipped
          = st.valid + st.skipped + combos.length ∧
      (∀ b, (combos.foldl (Optimize.sweepStep sharpeOf eval) st).best = some b →
        st.best = some b ∨ Optimize.passes_filters b.1 = true) ∧
      (∀ b, st.best = some b →
        ∃ b2, (combos.foldl (Optimize.sweepStep sharpeOf eval) st).best = some b2 ∧
          b.2 ≤ b2.2) ∧
      (∀ c ∈ combos, ∀ r, eval c = Except.ok r → Optimize.passes_filters r = true →
        ∃ b2, (combos.foldl (Optimize.sweepStep sharpeOf eval) st).best = some b2 ∧
          Optimize.scoreOf sharpeOf r ≤ b2.2) := by
  intro combos
  induction combos with
  | nil =>
    intro st
    exact ⟨rfl, rfl, fun b hb => Or.inl hb, fun b hb => ⟨b, hb, le_refl _⟩,
      fun c hc => absurd hc (List.not_mem_nil c)⟩
  | cons c cs ih =>
    intro st
    rw [List.foldl_cons]
    obtain ⟨iht, ihv, ihbf, ihmono, ihall⟩ := ih (Optimize.sweepStep sharpeOf eval st c)
    have hstep_t : (Optimize.sweepStep sharpeOf eval st c).tested = st.tested + 1 := by
      unfold Optimize.sweepStep
      cases eval c with
      | error e => rfl
      | ok r =>
        dsimp only
        by_cases hf : Optimize.passes_filters r
        · rw [if_pos hf]
        · rw [if_neg hf]
    have hstep_vs : (Optimize.sweepStep sharpeOf eval st c).valid
        + (Optimize.sweepStep sharpeOf eval st c).skipped
        = st.valid + st.skipped + 1 := by
      unfold Optimize.sweepStep
      cases eval c with
      | error e => dsimp only; omega
      | ok r =>
        dsimp only
        by_cases hf : Optimize.passes_filters r
        · rw [if_pos hf]; dsimp only; omega
        · rw [if_neg hf]; dsimp only; omega
    have hstep_best : ∀ b, (Optimize.sweepStep sharpeOf eval st c).best = some b →
        st.best = some b ∨ Optimize.passes_filters b.1 = true := by
      intro b hb
      unfold Optimize.sweepStep at hb
      cases hev : eval c with
      | error e => rw [hev] at hb; exact Or.inl hb
      | ok r =>
        rw [hev] at hb
        dsimp only at hb
        by_cases hf : Optimize.passes_filters r
        · rw [if_pos hf] at hb
          dsimp only at hb
          cases hsb : st.best with
          | none =>
            rw [hsb] at hb
            dsimp only at hb
            cases hb
            exact Or.inr hf
          | some b0 =>
            rw [hsb] at hb
            dsimp only at hb
            by_cases hlt : b0.2 < Optimize.scoreOf sharpeOf r
            · rw [if_pos hlt] at hb
              cases hb
              exact Or.inr hf
            · rw [if_neg hlt] at hb
              cases hb
              exact Or.inl rfl
        · rw [if_neg hf] at hb
          exact Or.inl hb
    have hstep_mono : ∀ b, st.best = some b →
        ∃ b1, (Optimize.sweepStep sharpeOf eval st c).best = some b1 ∧ b.2 ≤ b1.2 := by
      intro b hb
      unfold Optimize.sweepStep
      cases eval c with
      | error e => exact ⟨b, hb, le_refl _⟩
      | ok r =>
        dsimp only
        by_cases hf : Optimize.passes_filters r
        · rw [if_pos hf]
          dsimp only
          rw [hb]
          dsimp only
          by_cases hlt : b.2 < Optimize.scoreOf sharpeOf r
          · rw [if_pos hlt]
            exact ⟨(r, Optimize.scoreOf sharpeOf r), rfl, le_of_lt hlt⟩
          · rw [if_neg hlt]
            exact ⟨b, rfl, le_refl _⟩
        · rw [if_neg hf]
          exact ⟨b, hb, le_refl _⟩
    refine ⟨by rw [iht, hstep_t]; simp only [List.length_cons]; omega,
      by rw [ihv, hstep_vs]; simp only [List.length_cons]; omega, ?_, ?_, ?_⟩
    · intro b hb
      rcases ihbf b hb with h1 | h2
      · exact hstep_best b h1
      · exact Or.inr h2
    · intro b hb
      obtain ⟨b1, hb1, hle1⟩ := hstep_mono b hb
      obtain ⟨b2, hb2, hle2⟩ := ihmono b1 hb1
      exact ⟨b2, hb2, le_trans hle1 hle2⟩
    · intro c2 hc2 r hr hf
      rcases List.mem_cons.mp hc2 with rfl | htail
      · have hstep : ∃ b1, (Optimize.sweepStep sharpeOf eval st c2).best = some b1 ∧
            Optimize.scoreOf sharpeOf r ≤ b1.2 := by
          unfold Optimize.sweepStep
          rw [hr]
          dsimp only
          rw [if_pos hf]
          dsimp only
          cases hsb : st.best with
          | none => exact ⟨(r, Optimize.scoreOf sharpeOf r), rfl, le_refl _⟩
          | some b0 =>
            dsimp only
            by_cases hlt : b0.2 < Optimize.scoreOf sharpeOf r
            · rw [if_pos hlt]
              exact ⟨(r, Optimize.scoreOf sharpeOf r), rfl, le_refl _⟩
            · rw [if_neg hlt]
              exact ⟨b0, rfl, le_of_not_lt hlt⟩
        obtain ⟨b1, hb1, hle1⟩ := hstep
        obtain ⟨b2, hb2, hle2⟩ := ihmono b1 hb1
        exact ⟨b2, hb2, le_trans hle1 hle2⟩
      · exact ihall c2 htail r hr hf

/-- C9: the sweep body is total and accounting is exact — every
combination is tested, each is either valid or filtered/skipped (an
evaluation error or a failed early-termination filter only bumps the
skipped counter and never aborts the fold or touches the best result) —
the tracked best result always passed the filters, and when at least one
combination is valid the returned best's composite score is at least the
score of every valid combination. -/
theorem c9_sweep_contract {C : Type} (sharpeOf : List ℚ → ℚ)
    (eval : C → Except Unit Optimize.Result) (combos : List C) :
    (Optimize.optimizeSweep sharpeOf eval combos).tested = combos.length ∧
    (Optimize.optimizeSweep sharpeOf eval combos).valid
      + (Optimize.optimizeSweep sharpeOf eval combos).skipped = combos.length ∧
    (∀ b, (Optimize.optimizeSweep sharpeOf eval combos).best = some b →
      Optimize.passes_filters b.1 = true) ∧
    (∀ c ∈ combos, ∀ r, eval c = Except.ok r → Optimize.passes_filters r = true →
      ∃ b, (Optimize.optimizeSweep sharpeOf eval combos).best = some b ∧
        Optimize.scoreOf sharpeOf r ≤ b.2) := by
  obtain ⟨ht, hv, hbf, _, hall⟩ := sweep_fold_facts sharpeOf eval combos ⟨none, 0, 0, 0⟩
  unfold Optimize.optimizeSweep
  refine ⟨by rw [ht]; simp, by rw [hv]; simp, ?_, hall⟩
  intro b hb
  rcases hbf b hb with h1 | h2
  · exact absurd h1 (by intro h; cases h)
  · exact h2

theorem c9_sweep_contract_witness :
    (Optimize.optimizeSweep c9wSharpe c9wEval c9wCombos).tested = 3 ∧
    (Optimize.optimizeSweep c9wSharpe c9wEval c9wCombos).valid
      + (Optimize.optimizeSweep c9wSharpe c9wEval c9wCombos).skipped = 3 ∧
    (0 : ℕ) ∈ c9wCombos ∧ c9wEval 0 = Except.ok c9wR0 ∧
    Optimize.passes_filters c9wR0 = true ∧
    ∃ b, (Optimize.optimizeSweep c9wSharpe c9wEval c9wCombos).best = some b ∧
      Optimize.scoreOf c9wSharpe c9wR0 ≤ b.2 := by
  obtain ⟨ht, hv, hbf, hall⟩ := c9_sweep_contract c9wSharpe c9wEval c9wCombos
  have hmem : (0 : ℕ) ∈ c9wCombos := by simp [c9wCombos]
  have hev : c9wEval 0 = Except.ok c9wR0 := rfl
  have hpf : Optimize.passes_filters c9wR0 = true := by
    norm_num [Optimize.passes_filters, c9wR0, F.isFinite]
  exact ⟨ht.trans (by norm_num [c9wCombos]), by rw [hv]; norm_num [c9wCombos],
    hmem, hev, hpf, hall 0 hmem c9wR0 hev hpf⟩
